import Mathlib

/-
Verification of the Messenger debt-tracker bot (index.js).

The JavaScript source is shallowly embedded: strings are `List Char` /
`String`, JS numbers are modelled exactly over `ℚ`/`ℤ`/`ℕ` (all values the
program manipulates are far below 2^53, where IEEE doubles are exact),
the Google-Sheets row store is a `List` of row structures in insertion
order, and randomness / the clock enter as explicit parameters.
-/

namespace ChatBot

/-- ASCII digit test, the JavaScript regex class `\d`. -/
def isDig (c : Char) : Bool := '0' ≤ c && c ≤ '9'

/-- Whitespace recognized by the JavaScript `\s` class and
`String.prototype.trim`, restricted to the code points this program
manipulates. -/
def isJsWs (c : Char) : Bool :=
  c = ' ' || c = '\t' || c = '\n' || c = '\r' || c = '\x0b' || c = '\x0c' || c = ' '

/-- Line terminators, which the JavaScript `.` pattern never matches. -/
def isJsLineTerm (c : Char) : Bool := c = '\n' || c = '\r'

/-- Models `String.prototype.toLowerCase` on the ASCII range together with
the uppercase Vietnamese letters occurring in this program's command
vocabulary. -/
def jsToLower (c : Char) : Char :=
  if c.isUpper then c.toLower
  else if c = 'Đ' then 'đ'
  else if c = 'Ê' then 'ê' else if c = 'Ô' then 'ô' else if c = 'Ơ' then 'ơ'
  else if c = 'Ư' then 'ư' else if c = 'Ă' then 'ă'
  else if c = 'Ấ' then 'ấ' else if c = 'Ầ' then 'ầ' else if c = 'Ậ' then 'ậ'
  else if c = 'Ổ' then 'ổ' else if c = 'Ớ' then 'ớ' else if c = 'Ợ' then 'ợ'
  else if c = 'Ủ' then 'ủ' else if c = 'Ứ' then 'ứ' else if c = 'Ừ' then 'ừ'
  else if c = 'Ỷ' then 'ỷ'
  else c

/-- Models `String.prototype.toUpperCase` on the ASCII range (the program
only upper-cases captured `[A-Z0-9]+/i` code tokens and hex strings). -/
def jsToUpper (c : Char) : Char := if c.isLower then c.toUpper else c

/-- `trim()`: strip `isJsWs` characters from both ends. -/
def jsTrim (l : List Char) : List Char :=
  ((l.dropWhile isJsWs).reverse.dropWhile isJsWs).reverse

/-- Numeric value of a digit character. -/
def digVal (c : Char) : ℕ := c.toNat - '0'.toNat

/-- Value of a digit string (also models `parseInt` on an all-digit string;
exact here, while JS loses precision above 2^53 — irrelevant at the
magnitudes this ledger handles). -/
def natOfDigits (l : List Char) : ℕ := l.foldl (fun a c => 10 * a + digVal c) 0

/-- Signed exponent suffix of a JS float literal: optional sign then digits;
an exponent marker not followed by a digit is not part of the literal and
contributes 0. -/
def expOf (l : List Char) : ℤ :=
  match l with
  | '-' :: t => -(natOfDigits (t.takeWhile isDig) : ℤ)
  | '+' :: t => (natOfDigits (t.takeWhile isDig) : ℤ)
  | t => (natOfDigits (t.takeWhile isDig) : ℤ)

/-- Whether the exponent part after the marker contains at least one digit
(otherwise JS `parseFloat` does not consume the marker). -/
def expHasDigit (l : List Char) : Bool :=
  match l with
  | '-' :: t => !(t.takeWhile isDig).isEmpty
  | '+' :: t => !(t.takeWhile isDig).isEmpty
  | t => !(t.takeWhile isDig).isEmpty

/-- A number produced by JS `parseFloat` on a decimal literal: the exact
value `num / 10 ^ scale`. Every literal `parseFloat` accepts denotes such
a decimal, and all of `parseAmount`'s arithmetic on it (multiplying by a
power of ten, comparing with 0, half-up rounding) is exact in this form —
as it is in IEEE doubles below 2^53, which covers everything below this
program's 10^12 cap. -/
structure JsNum where
  num : ℤ
  scale : ℕ
  deriving DecidableEq, Repr

/-- The exact rational value of a decimal. -/
def JsNum.toRat (q : JsNum) : ℚ := (q.num : ℚ) / (10 : ℚ) ^ q.scale

/-- Models JavaScript `parseFloat`: longest numeric-literal prefix
(optional sign, digits, optional fraction, optional exponent), `none` for
NaN. The `Infinity` literal, never produced by this program's inputs after
cleaning, is not modelled. -/
def jsParseFloat (l : List Char) : Option JsNum :=
  let neg : Bool := l.head? == some '-'
  let l1 : List Char := if l.head? = some '-' ∨ l.head? = some '+' then l.tail else l
  let intPart := l1.takeWhile isDig
  let l2 := l1.dropWhile isDig
  let fracPart : List Char := if l2.head? = some '.' then l2.tail.takeWhile isDig else []
  let l3 : List Char := if l2.head? = some '.' then l2.tail.dropWhile isDig else l2
  if intPart.isEmpty && fracPart.isEmpty then none
  else
    let m0 : ℤ := (natOfDigits (intPart ++ fracPart) : ℤ)
    let m : ℤ := if neg then -m0 else m0
    let ex : ℤ :=
      if l3.head? = some 'e' ∨ l3.head? = some 'E' then
        (if expHasDigit l3.tail then expOf l3.tail else 0)
      else 0
    let shift : ℤ := ex - (fracPart.length : ℤ)
    if 0 ≤ shift then some ⟨m * (10 : ℤ) ^ shift.toNat, 0⟩
    else some ⟨m, (-shift).toNat⟩

/-- JavaScript `Math.round` (half-up, `⌊x + 1/2⌋`) of a decimal:
`⌊num/d + 1/2⌋ = ⌊(2·num + d) / (2·d)⌋` with `d = 10 ^ scale`. -/
def jsRoundD (q : JsNum) : ℤ :=
  Int.fdiv (2 * q.num + (10 : ℤ) ^ q.scale) (2 * (10 : ℤ) ^ q.scale)

/-- Spec-side JavaScript `Math.round` on exact rationals. -/
def jsRoundQ (q : ℚ) : ℤ := ⌊q + 1 / 2⌋

/-- `l` ends with `suf`. -/
def hasSuffix (l suf : List Char) : Bool :=
  decide (suf.length ≤ l.length) && l.drop (l.length - suf.length) == suf

/-- Drop the last `n` characters. -/
def dropLastN (l : List Char) (n : ℕ) : List Char := l.take (l.length - n)

/-- The cleaning pipeline of `parseAmount`:
`toLowerCase().replace(/,/g,'').replace(/\./g,'').replace(/đ/g,'').trim()`. -/
def cleanAmount (l : List Char) : List Char :=
  jsTrim ((l.map jsToLower).filter (fun c => !(c = ',' || c = '.' || c = 'đ')))

/-- `replace(/tr(ieu)?$/, '')` on a string known to end in `tr` or `trieu`:
the anchored match is the suffix occurrence, preferring `trieu`. -/
def stripTrSuffix (l : List Char) : List Char :=
  if hasSuffix l ['t', 'r', 'i', 'e', 'u'] then dropLastN l 5
  else if hasSuffix l ['t', 'r'] then dropLastN l 2
  else l

/-- The test `cleaned.match(/k\d+$/)`: a nonempty trailing digit run
preceded by `k`. -/
def kDigitSuffix (l : List Char) : Bool :=
  let r := l.reverse
  let ds := r.takeWhile isDig
  !ds.isEmpty && (r.drop ds.length).head? == some 'k'

/-- The full-string match `^(\d+)k(\d+)$` with its two `parseInt` captures. -/
def compoundKSplit (l : List Char) : Option (ℕ × ℕ) :=
  let d1 := l.takeWhile isDig
  match l.dropWhile isDig with
  | 'k' :: d2 =>
      if !d1.isEmpty && (!d2.isEmpty && d2.all isDig) then
        some (natOfDigits d1, natOfDigits d2)
      else none
  | _ => none

/-- Tail of `parseAmount`: `parseFloat`, positivity check, `Math.round`
with the multiplier, and the `10^12` ceiling. -/
def finishAmount (cleaned : List Char) (mult : ℕ) : Option ℤ :=
  match jsParseFloat cleaned with
  | none => none
  | some q =>
      if q.num ≤ 0 then none
      else
        let r := jsRoundD ⟨q.num * (mult : ℤ), q.scale⟩
        if r > 1000000000000 then none else some r

/-- `parseAmount` from index.js: clean the token, dispatch on the currency
suffix (`tr`/`trieu`, compound `<int>k<int>`, `k`, `m`, none) and convert.
The compound branch returns `mainPart*1000 + decimalPart*100` directly,
before the positivity and ceiling checks. -/
def parseAmount (s : String) : Option ℤ :=
  if s.data.isEmpty then none
  else
    let cleaned := cleanAmount s.data
    if hasSuffix cleaned ['t', 'r'] || hasSuffix cleaned ['t', 'r', 'i', 'e', 'u'] then
      finishAmount (stripTrSuffix cleaned) 1000000
    else if kDigitSuffix cleaned then
      match compoundKSplit cleaned with
      | some (m, d) => some ((m : ℤ) * 1000 + (d : ℤ) * 100)
      | none => finishAmount cleaned 1
    else if hasSuffix cleaned ['k'] then
      finishAmount (dropLastN cleaned 1) 1000
    else if hasSuffix cleaned ['m'] then
      finishAmount (dropLastN cleaned 1) 1000000
    else finishAmount cleaned 1

/-
The command classifier (`parseCommandSync`).  Each whole-string regex of the
source is embedded as an anchored matcher.  Alternations are resolved
first-match-wins with plain prefix consumption; this is sound for the
source's patterns because no two alternatives of one group can both match
a prefix of the same input (every pair diverges at a character position
before either alternative can complete), so no backtracking across
alternatives is ever needed.
-/

/-- The `[A-Z0-9]` class under the `i` flag. -/
def isCodeChar (c : Char) : Bool :=
  isDig c || ('a' ≤ c && c ≤ 'z') || ('A' ≤ c && c ≤ 'Z')

/-- `replace('@', '')` with a string argument: remove the first `@` only. -/
def replaceFirstAt : List Char → List Char
  | [] => []
  | '@' :: t => t
  | c :: t => c :: replaceFirstAt t

/-- `replace(/_/g, ' ')`. -/
def underscoreToSpace (l : List Char) : List Char :=
  l.map (fun c => if c = '_' then ' ' else c)

/-- Consume a literal given in lowercase, comparing case-insensitively
(the source regexes all carry the `i` flag). -/
def stripLitCI : List Char → List Char → Option (List Char)
  | [], l => some l
  | _ :: _, [] => none
  | p :: ps, c :: cs => if jsToLower c = p then stripLitCI ps cs else none

/-- Consume a keyword written in the source as literal words separated by
`\s*` (e.g. `xác\s*nhận`): the optional whitespace is eaten greedily only
between words, never after the last one. -/
def stripWordsCI : List String → List Char → Option (List Char)
  | [], l => some l
  | w :: ws, l =>
      match stripLitCI w.data l with
      | none => none
      | some r =>
          match ws with
          | [] => some r
          | _ :: _ => stripWordsCI ws (r.dropWhile isJsWs)

/-- First alternative of a `(a|b|…)` group that consumes a prefix. -/
def stripAltCI (alts : List (List String)) (l : List Char) : Option (List Char) :=
  match alts with
  | [] => none
  | a :: rest =>
      match stripWordsCI a l with
      | some r => some r
      | none => stripAltCI rest l

/-- Whole-string test `^(a|b|…)$` (used with `RegExp.test` in the source). -/
def testAlts (alts : List (List String)) (l : List Char) : Bool :=
  alts.any (fun a => stripWordsCI a l == some [])

/-- The `@?(\S+)$` tail shared by the alias and link patterns.  The capture
excludes a leading `@` when something follows it; a lone `@` is captured
by skipping the optional `@`. -/
def atNameCapture : List Char → Option (List Char)
  | [] => none
  | '@' :: r =>
      if r.isEmpty then some ['@']
      else if r.all (fun c => !isJsWs c) then some r
      else none
  | l => if l.all (fun c => !isJsWs c) then some l else none

/-- `^(alias|ten|tên)\s+@?(\S+)$` — returns the raw second capture. -/
def matchAlias (t : List Char) : Option (List Char) :=
  match stripAltCI [["alias"], ["ten"], ["tên"]] t with
  | none => none
  | some rest =>
      if (rest.takeWhile isJsWs).isEmpty then none
      else atNameCapture (rest.dropWhile isJsWs)

/-- `^(kw…)\s+([A-Z0-9]+)$` for the confirm and reject commands — returns
the upper-cased code. -/
def matchKwCode (alts : List (List String)) (t : List Char) : Option (List Char) :=
  match stripAltCI alts t with
  | none => none
  | some rest =>
      if (rest.takeWhile isJsWs).isEmpty then none
      else
        let code := rest.dropWhile isJsWs
        if !code.isEmpty && code.all isCodeChar then some (code.map jsToUpper) else none

/-- `^(link|lienket|liên\s*kết)\s+([A-Z0-9]+)\s+@?(\S+)$` — returns the
upper-cased code and the raw name capture. -/
def matchLink (t : List Char) : Option (List Char × List Char) :=
  match stripAltCI [["link"], ["lienket"], ["liên", "kết"]] t with
  | none => none
  | some rest =>
      if (rest.takeWhile isJsWs).isEmpty then none
      else
        let r1 := rest.dropWhile isJsWs
        let code := r1.takeWhile isCodeChar
        if code.isEmpty then none
        else
          let r2 := r1.drop code.length
          if (r2.takeWhile isJsWs).isEmpty then none
          else
            match atNameCapture (r2.dropWhile isJsWs) with
            | some cap => some (code.map jsToUpper, cap)
            | none => none

/-- `^(kw…)\s+(\S+)\s*(.*)$` for the debt and paid commands — returns the
amount token and the remainder capture (the `.` class cannot cross a line
terminator, so a remainder containing one fails the whole pattern). -/
def matchCmdAmount (alts : List (List String)) (t : List Char) :
    Option (List Char × List Char) :=
  match stripAltCI alts t with
  | none => none
  | some rest =>
      if (rest.takeWhile isJsWs).isEmpty then none
      else
        let r1 := rest.dropWhile isJsWs
        let tok := r1.takeWhile (fun c => !isJsWs c)
        if tok.isEmpty then none
        else
          let r2 := (r1.drop tok.length).dropWhile isJsWs
          if r2.any isJsLineTerm then none
          else some (tok, r2)

/-- `parseDebtorAndContent` from index.js: an optional `^@(\S+)` marker with
underscores turned into spaces, the rest (trimmed) as content. -/
def parseDebtorAndContent (remainder : List Char) : Option String × String :=
  if remainder.isEmpty then (none, "")
  else
    let trimmed := jsTrim remainder
    match trimmed with
    | '@' :: r =>
        let tok := r.takeWhile (fun c => !isJsWs c)
        if tok.isEmpty then (none, String.mk trimmed)
        else
          let r2 := (r.drop tok.length).dropWhile isJsWs
          if r2.any isJsLineTerm then (none, String.mk trimmed)
          else
            (some (String.mk (jsTrim (underscoreToSpace tok))), String.mk (jsTrim r2))
    | _ => (none, String.mk trimmed)

def checkKw : List (List String) :=
  [["check"], ["tong"], ["tổng"], ["show", "no"], ["xem", "no"], ["xem", "nợ"]]

/-- The optional `(conno|còn\s*nợ|@?\S+)?$` parameter of the check command:
each alternative must reach the end of the string, so a successful capture
is always the whole remainder. -/
def checkParamOk (l : List Char) : Bool :=
  l.all (fun c => !isJsWs c) || stripWordsCI ["còn", "nợ"] l == some []

/-- `^(check|tong|tổng|show\s*no|xem\s*no|xem\s*nợ)\s*(conno|còn\s*nợ|@?\S+)?$`
applied to the normalized (trimmed, lower-cased) text; returns the debtor
filter and the `onlyOwing` flag. -/
def matchCheck (norm : List Char) : Option (Option String × Bool) :=
  match stripAltCI checkKw norm with
  | none => none
  | some rest =>
      let rest2 := rest.dropWhile isJsWs
      if rest2.isEmpty then some (none, false)
      else if checkParamOk rest2 then
        if rest2 = "conno".data ∨ rest2 = "còn nợ".data then some (none, true)
        else
          some (some (String.mk (jsTrim (underscoreToSpace (replaceFirstAt rest2)))), false)
      else none

/-- `^(tim|tìm|find|search)\s+(.+)$`; when the text after the keyword is
pure whitespace, `\s+` backtracks one character so that `(.+)` can still
match a final non-line-terminator whitespace character. -/
def matchSearch (t : List Char) : Option String :=
  match stripAltCI [["tim"], ["tìm"], ["find"], ["search"]] t with
  | none => none
  | some rest =>
      let wsRun := rest.takeWhile isJsWs
      let tl := rest.dropWhile isJsWs
      if wsRun.isEmpty then none
      else if !tl.isEmpty then
        if tl.any isJsLineTerm then none else some (String.mk (jsTrim tl))
      else
        match rest.getLast? with
        | some c =>
            if 2 ≤ rest.length && !isJsLineTerm c then some (String.mk (jsTrim [c]))
            else none
        | none => none

def shareAlts : List (List String) :=
  [["sharecode"], ["taoma"], ["tạo", "mã"], ["ma", "ket", "noi"], ["mã", "kết", "nối"]]

def confirmAlts : List (List String) :=
  [["ok"], ["xn"], ["xacnhan"], ["xác", "nhận"], ["dong", "y"], ["đồng", "ý"]]

def rejectAlts : List (List String) :=
  [["huy"], ["huỷ"], ["hủy"], ["reject"], ["khong"], ["không"], ["tuchoi"], ["từ", "chối"]]

def pendingAlts : List (List String) :=
  [["pending"], ["cho"], ["chờ"], ["cho", "xac", "nhan"], ["chờ", "xác", "nhận"]]

def friendsAlts : List (List String) :=
  [["friends"], ["banbe"], ["bạn", "bè"], ["ds", "ban"], ["danh", "sách", "bạn"]]

def idAlts : List (List String) := [["id"], ["myid"], ["ma", "id"]]

def undoAlts : List (List String) :=
  [["xoa"], ["xóa"], ["undo"], ["huy"], ["huỷ"], ["hủy"]]

def statsAlts : List (List String) :=
  [["thang", "nay"], ["tháng", "này"], ["thang", "truoc"], ["tháng", "trước"],
   ["tuan", "nay"], ["tuần", "này"], ["tuan", "truoc"], ["tuần", "trước"],
   ["hom", "nay"], ["hôm", "nay"]]

def helpAlts : List (List String) :=
  [["help"], ["huong", "dan"], ["hướng", "dẫn"], ["menu"], ["?"]]

/-- The typed intents produced by the command classifier. -/
inductive Intent where
  | SET_ALIAS (name : String)
  | CREATE_SHARE_CODE
  | LINK_FRIEND (code name : String)
  | CONFIRM_DEBT (code : String)
  | REJECT_DEBT (code : String)
  | PENDING_LIST
  | LIST_FRIENDS
  | MY_ID
  | DEBT (amount : ℤ) (debtor : Option String) (content : String)
  | PAID (amount : ℤ) (debtor : Option String) (content : String)
  | CHECK (debtor : Option String) (onlyOwing : Bool)
  | UNDO
  | SEARCH (keyword : String)
  | STATS (period : String)
  | HELP
  deriving DecidableEq, Repr

/-- The placeholder note `'Không có nội dung'` used when a debt or paid
command carries no content. -/
def defaultContent (c : String) : String :=
  if c.data.isEmpty then "Không có nội dung" else c

/-- The debt branch: pattern match, then `parseAmount`, falling through
(like the source's `if (amount)`) when the token is not a truthy amount. -/
def ruleDebt (t : List Char) : Option Intent :=
  match matchCmdAmount [["no"], ["nợ"]] t with
  | none => none
  | some (tok, rem) =>
      match parseAmount (String.mk tok) with
      | none => none
      | some a =>
          if a = 0 then none
          else
            let dc := parseDebtorAndContent rem
            some (.DEBT a dc.1 (defaultContent dc.2))

/-- The paid branch, `^(tra|trả)` with the same structure as `ruleDebt`. -/
def rulePaid (t : List Char) : Option Intent :=
  match matchCmdAmount [["tra"], ["trả"]] t with
  | none => none
  | some (tok, rem) =>
      match parseAmount (String.mk tok) with
      | none => none
      | some a =>
          if a = 0 then none
          else
            let dc := parseDebtorAndContent rem
            some (.PAID a dc.1 (defaultContent dc.2))

/-- `parseCommandSync` from index.js: the ordered chain of pattern matches,
first match wins. -/
def parseCommandSync (text : String) : Option Intent :=
  if text.data.isEmpty then none
  else
    let t := text.data
    let norm := (jsTrim t).map jsToLower
    ((matchAlias t).map (fun cap => Intent.SET_ALIAS (String.mk (replaceFirstAt cap)))) <|>
    (if testAlts shareAlts norm then some .CREATE_SHARE_CODE else none) <|>
    ((matchLink t).map (fun p =>
      Intent.LINK_FRIEND (String.mk p.1) (String.mk (replaceFirstAt p.2)))) <|>
    ((matchKwCode confirmAlts t).map (fun c => Intent.CONFIRM_DEBT (String.mk c))) <|>
    ((matchKwCode rejectAlts t).map (fun c => Intent.REJECT_DEBT (String.mk c))) <|>
    (if testAlts pendingAlts norm then some .PENDING_LIST else none) <|>
    (if testAlts friendsAlts norm then some .LIST_FRIENDS else none) <|>
    (if testAlts idAlts norm then some .MY_ID else none) <|>
    ruleDebt t <|>
    rulePaid t <|>
    ((matchCheck norm).map (fun p => Intent.CHECK p.1 p.2)) <|>
    (if testAlts undoAlts norm then some .UNDO else none) <|>
    ((matchSearch t).map (fun k => Intent.SEARCH k)) <|>
    (if testAlts statsAlts norm then some (Intent.STATS (String.mk norm)) else none) <|>
    (if testAlts helpAlts norm then some .HELP else none)

/-
Identity directory: `normalizeVietnamese` and the Aliases / FriendLinks
sheets, each a list of rows in insertion order.
-/

/-- Strip the diacritic of a lower-case Vietnamese letter (the effect of
`normalize('NFD').replace(/[̀-ͯ]/g,'')` plus `đ → d` on the
alphabet this program handles). -/
def viBase (c : Char) : Char :=
  if "àáạảãâầấậẩẫăằắặẳẵ".data.contains c then 'a'
  else if "èéẹẻẽêềếệểễ".data.contains c then 'e'
  else if "ìíịỉĩ".data.contains c then 'i'
  else if "òóọỏõôồốộổỗơờớợởỡ".data.contains c then 'o'
  else if "ùúụủũưừứựửữ".data.contains c then 'u'
  else if "ỳýỵỷỹ".data.contains c then 'y'
  else if c = 'đ' then 'd'
  else c

/-- `normalizeVietnamese` from index.js: lower-case, strip diacritics,
`đ → d`, then keep only `[a-z0-9]`. -/
def normalizeVietnamese (s : String) : String :=
  String.mk (((s.data.map jsToLower).map viBase).filter
    (fun c => ('a' ≤ c && c ≤ 'z') || isDig c))

/-- One row of the `Aliases` sheet (`name` embeds the `Alias` column;
`alias` is a reserved word in Lean). -/
structure AliasRow where
  userId : String
  name : String
  createdAt : String
  deriving DecidableEq, Repr

/-- One row of the `FriendLinks` sheet. -/
structure FriendLinkRow where
  userA : String
  userB : String
  aliasBForA : String
  aliasAForB : String
  code : String
  status : String
  createdAt : String
  expiresAt : String
  deriving DecidableEq, Repr

/-- One row of the `Transactions` sheet.  `kind` embeds the `Type` column. -/
structure Txn where
  date : String
  userId : String
  debtor : String
  kind : String
  amount : ℤ
  content : String
  debtorUserId : String
  status : String
  debtCode : String
  deriving DecidableEq, Repr

/-- JS `a || b` where `a` is a string cell and `b` a nullable string:
the empty string is falsy. -/
def jsOrS (a : String) (b : Option String) : Option String :=
  if a = "" then b else some a

/-- Collapse a JS-falsy string (`''` or null) to `none`. -/
def truthyS : Option String → Option String
  | some s => if s = "" then none else some s
  | none => none

/-- The shared accent-insensitive row search of `setAlias` /
`getUserIdByAlias`: first row whose nonempty `Alias` normalizes to the
input's normalization. -/
def findAliasRowByNorm (rows : List AliasRow) (inp : String) : Option AliasRow :=
  rows.find? (fun r =>
    !(r.name == "") && normalizeVietnamese r.name == normalizeVietnamese inp)

def getAliasByUserId (rows : List AliasRow) (uid : String) : Option String :=
  (rows.find? (fun r => r.userId == uid)).map (fun r => r.name)

def getUserIdByAlias (rows : List AliasRow) (nm : String) : Option String :=
  (findAliasRowByNorm rows nm).map (fun r => r.userId)

/-- Replace the first row owned by `uid`, setting its `Alias` and
`CreatedAt` in place (the `existingRow.set(…); save()` path). -/
def updateFirstAliasRow (uid nm now : String) : List AliasRow → List AliasRow
  | [] => []
  | r :: rs =>
      if r.userId = uid then { r with name := nm, createdAt := now } :: rs
      else r :: updateFirstAliasRow uid nm now rs

/-- `setAlias` from index.js: reject when the first row with the same
normalized alias belongs to another party, otherwise update the caller's
row in place or append a fresh one.  Returns the success flag and the new
sheet. -/
def setAlias (now : String) (rows : List AliasRow) (uid nm : String) :
    Bool × List AliasRow :=
  let upserted :=
    if rows.any (fun r => r.userId == uid) then updateFirstAliasRow uid nm now rows
    else rows ++ [⟨uid, nm, now⟩]
  match findAliasRowByNorm rows nm with
  | some r => if r.userId = uid then (true, upserted) else (false, rows)
  | none => (true, upserted)

/-- `getFriendUserId` from index.js: scan ACTIVE FriendLink rows for a
directional alias whose normalization matches, else fall back to the
global Aliases directory. -/
def getFriendUserId (aliases : List AliasRow) (uid nm : String) :
    List FriendLinkRow → Option String
  | [] => getUserIdByAlias aliases nm
  | r :: rs =>
      if r.status ≠ "ACTIVE" then getFriendUserId aliases uid nm rs
      else if r.userA = uid ∧ r.aliasBForA ≠ "" ∧
          normalizeVietnamese r.aliasBForA = normalizeVietnamese nm then some r.userB
      else if r.userB = uid ∧ r.aliasAForB ≠ "" ∧
          normalizeVietnamese r.aliasAForB = normalizeVietnamese nm then some r.userA
      else getFriendUserId aliases uid nm rs

/-- One entry of `getLinkedFriends` (`nameOpt` is the JS `friend.alias`,
null when the sheet lookups produced nothing). -/
structure Friend where
  userId : String
  nameOpt : Option String
  deriving DecidableEq, Repr

def getLinkedFriends (links : List FriendLinkRow) (aliases : List AliasRow)
    (uid : String) : List Friend :=
  links.filterMap (fun r =>
    if r.status ≠ "ACTIVE" then none
    else if r.userA = uid then some ⟨r.userB, some r.aliasBForA⟩
    else if r.userB = uid then
      some ⟨r.userA, jsOrS r.aliasAForB (getAliasByUserId aliases r.userA)⟩
    else none)

/-- `getFriendAliasByIndex`: 1-based index into the linked-friend list,
`null` out of range and for a falsy alias. -/
def getFriendAliasByIndex (links : List FriendLinkRow) (aliases : List AliasRow)
    (uid : String) (index1 : ℕ) : Option String :=
  let friends := getLinkedFriends links aliases uid
  if index1 = 0 ∨ friends.length < index1 then none
  else
    match friends.get? (index1 - 1) with
    | some f => truthyS f.nameOpt
    | none => none

/-
Ledger: creating, confirming, rejecting and undoing transactions.
-/

/-- Outcome of `handleAddDebt` / `handleRepayDebt` (response strings and
notifications are delivery concerns; `pending` records which branch was
taken). -/
inductive AddOutcome where
  | invalidIndex
  | ok (pending : Bool)
  deriving DecidableEq, Repr

/-- The shared body of `handleAddDebt` and `handleRepayDebt` (the two
source functions are verbatim copies except for the `Type` cell and the
message strings): resolve a numeric `@index`, look the counterparty up
with `getFriendUserId`, and build the row — PENDING with the fresh code
when a user id was resolved, CONFIRMED with an empty code otherwise. -/
def addEntry (links : List FriendLinkRow) (aliases : List AliasRow)
    (now freshCode : String) (kind uid : String) (amount : ℤ)
    (debtor : Option String) (content : String) : AddOutcome × Option Txn :=
  match truthyS debtor with
  | none =>
      (.ok false, some ⟨now, uid, "Chung", kind, amount, content, "", "CONFIRMED", ""⟩)
  | some d =>
      let resolved? : Option String :=
        if !d.data.isEmpty && d.data.all isDig then
          getFriendAliasByIndex links aliases uid (natOfDigits d.data)
        else some d
      match resolved? with
      | none => (.invalidIndex, none)
      | some resolved =>
          let duid := (getFriendUserId aliases uid resolved links).getD ""
          let pending := duid ≠ ""
          let t : Txn :=
            ⟨now, uid, (if resolved = "" then "Chung" else resolved), kind, amount,
             content, duid, (if duid ≠ "" then "PENDING" else "CONFIRMED"),
             (if duid ≠ "" then freshCode else "")⟩
          (.ok pending, some t)

def handleAddDebt (links : List FriendLinkRow) (aliases : List AliasRow)
    (now freshCode uid : String) (amount : ℤ) (debtor : Option String)
    (content : String) : AddOutcome × Option Txn :=
  addEntry links aliases now freshCode "DEBT" uid amount debtor content

def handleRepayDebt (links : List FriendLinkRow) (aliases : List AliasRow)
    (now freshCode uid : String) (amount : ℤ) (debtor : Option String)
    (content : String) : AddOutcome × Option Txn :=
  addEntry links aliases now freshCode "PAID" uid amount debtor content

/-- Outcome of `handleConfirmDebt` / `handleRejectDebt`. -/
inductive ConfirmOutcome where
  | notFound
  | alreadyProcessed
  | notAuthorized
  | done
  deriving DecidableEq, Repr

/-- The shared body of `handleConfirmDebt` and `handleRejectDebt`
(identical in the source up to the terminal status and the message
strings): find the first row carrying the code (`findDebtByCode`), check
PENDING, check the caller is the row's `DebtorUserID`, then update the
status cell of that row only. -/
def finalizeDebt (uid code newStatus : String) : List Txn → ConfirmOutcome × List Txn
  | [] => (.notFound, [])
  | t :: ts =>
      if t.debtCode = code then
        if t.status ≠ "PENDING" then (.alreadyProcessed, t :: ts)
        else if t.debtorUserId ≠ uid then (.notAuthorized, t :: ts)
        else (.done, { t with status := newStatus } :: ts)
      else
        let r := finalizeDebt uid code newStatus ts
        (r.1, t :: r.2)

def handleConfirmDebt (st : List Txn) (uid code : String) : ConfirmOutcome × List Txn :=
  finalizeDebt uid code "CONFIRMED" st

def handleRejectDebt (st : List Txn) (uid code : String) : ConfirmOutcome × List Txn :=
  finalizeDebt uid code "REJECTED" st

/-- Remove the last element satisfying `p` (and return it), the shape of
`deleteLastTransaction`: filter the caller's own rows, take the last by
insertion order, delete exactly that row. -/
def removeLastBy (p : Txn → Bool) : List Txn → Option Txn × List Txn
  | [] => (none, [])
  | t :: ts =>
      match removeLastBy p ts with
      | (some d, ts2) => (some d, t :: ts2)
      | (none, _) => if p t then (some t, ts) else (none, t :: ts)

/-- `deleteLastTransaction` from index.js (the visibility filter of
`getRowsByUser` is interleaved with `r.UserID === userId`, which implies
it). -/
def deleteLastTransaction (uid : String) (st : List Txn) : Option Txn × List Txn :=
  removeLastBy (fun t => t.userId == uid) st

/-
Balance aggregator (`handleCheckDebt`): fold the caller's CONFIRMED rows
into per-counterparty buckets keyed by normalized display name.
-/

/-- Per-bucket accumulator of `handleCheckDebt`. -/
structure Stat where
  debt : ℤ
  paid : ℤ
  displayName : String
  deriving DecidableEq, Repr

/-- Bucket key: the normalized display name, `'__unknown__'` when it
normalizes away completely. -/
def statKey (dn : String) : String :=
  if normalizeVietnamese dn = "" then "__unknown__" else normalizeVietnamese dn

/-- `friendAliasMap[u]`: the JS object maps each friend's id to its alias,
later entries overwriting earlier ones. -/
def friendAliasLookup (friends : List Friend) (u : String) : Option String :=
  match friends.reverse.find? (fun f => f.userId == u) with
  | some f => f.nameOpt
  | none => none

/-- `buildAliasCache()[u]`: rows with falsy cells are skipped; later rows
overwrite earlier ones. -/
def aliasCacheLookup (aliases : List AliasRow) (u : String) : Option String :=
  match aliases.reverse.find? (fun r =>
      !(r.userId == "") && (!(r.name == "") && r.userId == u)) with
  | some r => some r.name
  | none => none

/-- The display name under which the caller sees a row created by the
other party: `friendAliasMap[UserID] || aliasCache[UserID] || 'Ai đó'`. -/
def counterDisplayName (friends : List Friend) (aliases : List AliasRow)
    (creator : String) : String :=
  match truthyS (friendAliasLookup friends creator) with
  | some a => a
  | none =>
      match truthyS (aliasCacheLookup aliases creator) with
      | some a => a
      | none => "Ai đó"

/-- The viewpoint normalization of one CONFIRMED row: display name, added
debt and added paid amounts, from `uid`'s point of view (`none` for a row
not involving `uid`, the loop's `continue`). -/
def rowView (uid : String) (friends : List Friend) (aliases : List AliasRow)
    (r : Txn) : Option (String × ℤ × ℤ) :=
  if r.userId = uid then
    some ((if r.debtor = "" then "Chung" else r.debtor),
      (if r.kind = "DEBT" then r.amount else 0),
      (if r.kind = "PAID" then r.amount else 0))
  else if r.debtorUserId = uid then
    some (counterDisplayName friends aliases r.userId,
      (if r.kind = "PAID" then r.amount else 0),
      (if r.kind = "DEBT" then r.amount else 0))
  else none

/-- Add one row's contribution to the bucket list (JS object insertion
semantics for these non-index keys: first insertion fixes the position and
the display label). -/
def bumpStat (key dn : String) (d p : ℤ) : List (String × Stat) → List (String × Stat)
  | [] => [(key, ⟨d, p, dn⟩)]
  | (k, s) :: rest =>
      if k = key then (k, ⟨s.debt + d, s.paid + p, s.displayName⟩) :: rest
      else (k, s) :: bumpStat key dn d p rest

/-- The `filterDebtor` guard (`continue` unless normalizations agree; a
falsy filter passes everything). -/
def passesFilter (filterDebtor : Option String) (dn : String) : Bool :=
  match truthyS filterDebtor with
  | none => true
  | some f => normalizeVietnamese dn == normalizeVietnamese f

/-- The accumulation loop of `handleCheckDebt`. -/
def statStep (uid : String) (filterDebtor : Option String) (friends : List Friend)
    (aliases : List AliasRow) (acc : List (String × Stat)) (r : Txn) :
    List (String × Stat) :=
  match rowView uid friends aliases r with
  | none => acc
  | some (dn, d, p) =>
      if passesFilter filterDebtor dn then bumpStat (statKey dn) dn d p acc
      else acc

/-- The result of the balance computation inside `handleCheckDebt`:
buckets, the total (computed across all buckets before the `onlyOwing`
filter is applied), and the sorted, optionally filtered listing. -/
structure CheckView where
  stats : List (String × Stat)
  totalBalance : ℤ
  listing : List (String × ℤ)
  deriving DecidableEq, Repr

/-- Descending stable sort by balance, `(a, b) => b.balance - a.balance`. -/
def sortByBalanceDesc (l : List (String × ℤ)) : List (String × ℤ) :=
  List.insertionSort (fun a b => b.2 ≤ a.2) l

/-- `handleCheckDebt` from index.js, up to response formatting: visible
rows are those created by the caller or naming it as `DebtorUserID`; only
CONFIRMED rows are folded; `totalDebt`/`totalPaid` are summed over all
buckets; the listing is sorted descending and, for `onlyOwing`, restricted
to strictly positive balances. -/
def handleCheckDebt (links : List FriendLinkRow) (aliases : List AliasRow)
    (uid : String) (filterDebtor : Option String) (onlyOwing : Bool)
    (ledger : List Txn) : CheckView :=
  let visible := ledger.filter (fun r => r.userId == uid || r.debtorUserId == uid)
  let confirmedRows := visible.filter (fun r => r.status == "CONFIRMED")
  let friends := getLinkedFriends links aliases uid
  let stats := confirmedRows.foldl (statStep uid filterDebtor friends aliases) []
  let totalDebt := (stats.map (fun p => p.2.debt)).sum
  let totalPaid := (stats.map (fun p => p.2.paid)).sum
  let entries := stats.map (fun p =>
    ((if p.2.displayName = "" then p.1 else p.2.displayName), p.2.debt - p.2.paid))
  let sorted := sortByBalanceDesc entries
  let listing := if onlyOwing then sorted.filter (fun d => 0 < d.2) else sorted
  ⟨stats, totalDebt - totalPaid, listing⟩

/-- The computed balance toward one bucket. -/
def balanceToward (v : CheckView) (key : String) : ℤ :=
  match v.stats.find? (fun p => p.1 == key) with
  | some p => p.2.debt - p.2.paid
  | none => 0

/-
Code generation (`generateCode`): randomness enters as the byte values.
-/

def hexDigit (n : ℕ) : Char := "0123456789abcdef".data.getD n '0'

/-- One byte of `Buffer.toString('hex')`. -/
def byteHex (b : ℕ) : List Char := [hexDigit (b / 16), hexDigit (b % 16)]

/-- `generateCode` from index.js:
`crypto.randomBytes(4).toString('hex').toUpperCase().substring(0, length)`,
with the four random bytes passed explicitly. -/
def generateCode (bytes : List ℕ) (len : ℕ) : String :=
  String.mk ((((bytes.map byteHex).flatten).map jsToUpper).take len)

/-- A well-formed Aliases sheet: every row carries a name, and distinct
rows have distinct party ids and distinct normalized names — the
invariant `setAlias` and the auto-alias path maintain. -/
def AliasWF (rows : List AliasRow) : Prop :=
  (∀ r ∈ rows, r.name ≠ "") ∧
    rows.Pairwise (fun r1 r2 => r1.userId ≠ r2.userId ∧
      normalizeVietnamese r1.name ≠ normalizeVietnamese r2.name)

instance : IsTotal (String × ℤ) (fun a b => b.2 ≤ a.2) :=
  ⟨fun a b => le_total b.2 a.2⟩

instance : IsTrans (String × ℤ) (fun a b => b.2 ≤ a.2) :=
  ⟨fun _ _ _ h1 h2 => le_trans h2 h1⟩

/-- The alphabet of `generateCode`: upper-cased hexadecimal. -/
def isHexUp (c : Char) : Bool := isDig c || ('A' ≤ c && c ≤ 'F')

/-- First character of an alternation group's alternative. -/
def altHead (a : List String) : Option Char :=
  a.head?.bind (fun w => w.data.head?)

/-- Disqualifies a whole alternation group at the first character: every
alternative's first word starts with a character `c` cannot match
case-insensitively. -/
def altsRejectHead (alts : List (List String)) (c : Char) : Bool :=
  alts.all (fun a => (altHead a).any (fun x => !(jsToLower c == x)))

/-
Character-class facts used by the universal theorems.
-/

theorem char_ne_of_toNat {c d : Char} (h : c.toNat ≠ d.toNat) : c ≠ d :=
  fun he => h (congrArg Char.toNat he)

theorem toNat_bounds_of_isDig {c : Char} (h : isDig c = true) :
    48 ≤ c.toNat ∧ c.toNat ≤ 57 := by
  unfold isDig at h
  rw [Bool.and_eq_true, decide_eq_true_eq, decide_eq_true_eq] at h
  exact ⟨h.1, h.2⟩

theorem isUpper_false_of_toNat_lt {c : Char} (h : c.toNat < 65) : c.isUpper = false := by
  simp only [Char.isUpper, ge_iff_le]
  rw [Bool.and_eq_false_iff]
  exact Or.inl (decide_eq_false (fun hh : (65 : UInt32) ≤ c.val => by
    have h2 : (65 : ℕ) ≤ c.toNat := hh
    omega))

theorem jsToLower_fixed_of_toNat_lt {c : Char} (h : c.toNat < 65) : jsToLower c = c := by
  unfold jsToLower
  rw [isUpper_false_of_toNat_lt h]
  simp only [Bool.false_eq_true, if_false]
  rw [if_neg (char_ne_of_toNat (by simp; omega)), if_neg (char_ne_of_toNat (by simp; omega)),
      if_neg (char_ne_of_toNat (by simp; omega)), if_neg (char_ne_of_toNat (by simp; omega)),
      if_neg (char_ne_of_toNat (by simp; omega)), if_neg (char_ne_of_toNat (by simp; omega)),
      if_neg (char_ne_of_toNat (by simp; omega)), if_neg (char_ne_of_toNat (by simp; omega)),
      if_neg (char_ne_of_toNat (by simp; omega)), if_neg (char_ne_of_toNat (by simp; omega)),
      if_neg (char_ne_of_toNat (by simp; omega)), if_neg (char_ne_of_toNat (by simp; omega)),
      if_neg (char_ne_of_toNat (by simp; omega)), if_neg (char_ne_of_toNat (by simp; omega)),
      if_neg (char_ne_of_toNat (by simp; omega)), if_neg (char_ne_of_toNat (by simp; omega))]

theorem isJsWs_false_of_digRange {c : Char} (h1 : 48 ≤ c.toNat) (h2 : c.toNat ≤ 57) :
    isJsWs c = false := by
  unfold isJsWs
  rw [Bool.or_eq_false_iff, Bool.or_eq_false_iff, Bool.or_eq_false_iff,
      Bool.or_eq_false_iff, Bool.or_eq_false_iff, Bool.or_eq_false_iff]
  refine ⟨⟨⟨⟨⟨⟨?_, ?_⟩, ?_⟩, ?_⟩, ?_⟩, ?_⟩, ?_⟩ <;>
    exact decide_eq_false (char_ne_of_toNat (by simp; omega))

/-
List facts used to evaluate the matchers and the amount grammar on
symbolically constrained inputs.
-/

theorem takeWhile_all_eq {p : Char → Bool} {l : List Char} (h : l.all p = true) :
    l.takeWhile p = l := by
  induction l with
  | nil => rfl
  | cons c cs ih =>
      simp only [List.all_cons, Bool.and_eq_true] at h
      simp [List.takeWhile_cons, h.1, ih h.2]

theorem dropWhile_all_eq_nil {p : Char → Bool} {l : List Char} (h : l.all p = true) :
    l.dropWhile p = [] := by
  induction l with
  | nil => rfl
  | cons c cs ih =>
      simp only [List.all_cons, Bool.and_eq_true] at h
      simp [List.dropWhile_cons, h.1, ih h.2]

theorem takeWhile_head_false {p : Char → Bool} {l : List Char}
    (h : ∀ c, l.head? = some c → p c = false) : l.takeWhile p = [] := by
  cases l with
  | nil => rfl
  | cons c cs => simp [List.takeWhile_cons, h c rfl]

theorem dropWhile_head_false {p : Char → Bool} {l : List Char}
    (h : ∀ c, l.head? = some c → p c = false) : l.dropWhile p = l := by
  cases l with
  | nil => rfl
  | cons c cs => simp [List.dropWhile_cons, h c rfl]

theorem jsTrim_eq_self_of_ends {l : List Char}
    (h1 : ∀ c, l.head? = some c → isJsWs c = false)
    (h2 : ∀ c, l.getLast? = some c → isJsWs c = false) : jsTrim l = l := by
  unfold jsTrim
  rw [dropWhile_head_false h1, dropWhile_head_false (by
    intro c hc
    exact h2 c (by rwa [List.head?_reverse] at hc)), List.reverse_reverse]

theorem dropWhile_all_not {p : Char → Bool} {l : List Char}
    (h : l.all (fun c => !p c) = true) : l.dropWhile p = l := by
  cases l with
  | nil => rfl
  | cons c cs =>
      simp only [List.all_cons, Bool.and_eq_true] at h
      have hf : p c = false := by simpa using h.1
      simp [List.dropWhile_cons, hf]

theorem jsTrim_all_nonWs {l : List Char} (h : l.all (fun c => !isJsWs c) = true) :
    jsTrim l = l := by
  unfold jsTrim
  rw [dropWhile_all_not h, dropWhile_all_not (by rwa [List.all_reverse]),
    List.reverse_reverse]

theorem exists_of_hasSuffix {l suf : List Char} (h : hasSuffix l suf = true) :
    ∃ pre, l = pre ++ suf := by
  unfold hasSuffix at h
  rw [Bool.and_eq_true, decide_eq_true_eq, beq_iff_eq] at h
  exact ⟨l.take (l.length - suf.length), by
    conv_lhs => rw [← List.take_append_drop (l.length - suf.length) l]
    rw [h.2]⟩

theorem hasSuffix_false_of_digits {ds suf : List Char} {c : Char}
    (hd : ds.all isDig = true) (hc : c ∈ suf) (hcd : isDig c = false) :
    hasSuffix ds suf = false := by
  cases hEq : hasSuffix ds suf with
  | false => rfl
  | true =>
      obtain ⟨pre, hpre⟩ := exists_of_hasSuffix hEq
      have := List.all_eq_true.mp hd c (by rw [hpre]; exact List.mem_append_right _ hc)
      rw [hcd] at this
      cases this

theorem kDigitSuffix_digits {ds : List Char} (hd : ds.all isDig = true) :
    kDigitSuffix ds = false := by
  have hrev : ds.reverse.all isDig = true := by rwa [List.all_reverse]
  simp only [kDigitSuffix]
  rw [takeWhile_all_eq hrev]
  simp
  intro _
  rw [List.getElem?_eq_none (by simp)]
  simp

theorem jsParseFloat_digits {ds : List Char} (h1 : ds ≠ []) (h2 : ds.all isDig = true) :
    jsParseFloat ds = some ⟨(natOfDigits ds : ℤ), 0⟩ := by
  obtain ⟨c, cs, rfl⟩ := List.exists_cons_of_ne_nil h1
  have hc : isDig c = true := by
    have := List.all_eq_true.mp h2 c (List.mem_cons_self c cs)
    simpa using this
  obtain ⟨hb1, hb2⟩ := toNat_bounds_of_isDig hc
  have hm : (c :: cs).head? = some c := rfl
  have hne : ¬((c :: cs).head? = some '-' ∨ (c :: cs).head? = some '+') := by
    rw [hm]
    rintro (h | h) <;> exact char_ne_of_toNat (by simp; omega) (Option.some.inj h)
  have hneg : ((c :: cs).head? == some '-') = false := by
    rw [hm]
    exact beq_eq_false_iff_ne.mpr (fun h => char_ne_of_toNat (by simp; omega)
      (Option.some.inj h))
  simp only [jsParseFloat]
  rw [hneg, if_neg hne, takeWhile_all_eq h2, dropWhile_all_eq_nil h2]
  simp [List.append_nil]

theorem jsRoundD_int (m : ℤ) : jsRoundD ⟨m, 0⟩ = m := by
  unfold jsRoundD
  rw [Int.fdiv_eq_ediv _ (by norm_num)]
  simp
  omega

theorem map_jsToLower_digits {ds : List Char} (h : ds.all isDig = true) :
    ds.map jsToLower = ds := by
  induction ds with
  | nil => rfl
  | cons c cs ih =>
      simp only [List.all_cons, Bool.and_eq_true] at h
      obtain ⟨hb1, hb2⟩ := toNat_bounds_of_isDig h.1
      have hlt : c.toNat < 65 := by omega
      simp [jsToLower_fixed_of_toNat_lt hlt, ih h.2]

theorem amountKeep_of_digit {c : Char} (hb1 : 48 ≤ c.toNat) (hb2 : c.toNat ≤ 57) :
    (!(c = ',' || c = '.' || c = 'đ' : Bool)) = true := by
  rw [Bool.not_eq_true', Bool.or_eq_false_iff, Bool.or_eq_false_iff]
  exact ⟨⟨decide_eq_false (char_ne_of_toNat (by simp; omega)),
    decide_eq_false (char_ne_of_toNat (by simp; omega))⟩,
    decide_eq_false (char_ne_of_toNat (by simp; omega))⟩

theorem filter_amountKeep_digits {ds : List Char} (h : ds.all isDig = true) :
    ds.filter (fun c => !(c = ',' || c = '.' || c = 'đ')) = ds := by
  rw [List.filter_eq_self]
  intro a ha
  obtain ⟨hb1, hb2⟩ := toNat_bounds_of_isDig (by simpa using List.all_eq_true.mp h a ha)
  exact amountKeep_of_digit hb1 hb2

theorem all_nonWs_of_digits {ds : List Char} (h : ds.all isDig = true) :
    ds.all (fun c => !isJsWs c) = true := by
  rw [List.all_eq_true] at h ⊢
  intro c hc
  obtain ⟨hb1, hb2⟩ := toNat_bounds_of_isDig (by simpa using h c hc)
  simp [isJsWs_false_of_digRange hb1 hb2]

theorem cleanAmount_digits {ds : List Char} (h : ds.all isDig = true) :
    cleanAmount ds = ds := by
  unfold cleanAmount
  rw [map_jsToLower_digits h, filter_amountKeep_digits h,
    jsTrim_all_nonWs (all_nonWs_of_digits h)]

theorem finishAmount_le_cap {c : List Char} {mult : ℕ} {v : ℤ}
    (h : finishAmount c mult = some v) : v ≤ 1000000000000 := by
  rcases hq : jsParseFloat c with _ | q
  · simp only [finishAmount, hq] at h
    exact Option.noConfusion h
  · simp only [finishAmount, hq] at h
    split at h
    · cases h
    · split at h
      · cases h
      · rw [Option.some.injEq] at h
        omega

theorem parseAmount_cap {s : String} {v : ℤ} (h : parseAmount s = some v) :
    v ≤ 1000000000000 ∨
      ∃ m d : ℕ, compoundKSplit (cleanAmount s.data) = some (m, d) ∧
        v = (m : ℤ) * 1000 + (d : ℤ) * 100 := by
  simp only [parseAmount] at h
  split at h
  · cases h
  · split at h
    · exact Or.inl (finishAmount_le_cap h)
    · split at h
      · rcases hc : compoundKSplit (cleanAmount s.data) with _ | ⟨m, d⟩ <;> rw [hc] at h
        · exact Or.inl (finishAmount_le_cap h)
        · rw [Option.some.injEq] at h
          exact Or.inr ⟨m, d, rfl, h.symm⟩
      · split at h
        · exact Or.inl (finishAmount_le_cap h)
        · split at h
          · exact Or.inl (finishAmount_le_cap h)
          · exact Or.inl (finishAmount_le_cap h)

theorem finishAmount_digits {ds : List Char} (h1 : ds ≠ []) (h2 : ds.all isDig = true) :
    finishAmount ds 1 =
      if 0 < natOfDigits ds ∧ natOfDigits ds ≤ 10 ^ 12 then some ((natOfDigits ds : ℤ))
      else none := by
  simp only [finishAmount, jsParseFloat_digits h1 h2]
  by_cases h0 : natOfDigits ds = 0
  · rw [if_pos (by simp [h0]), if_neg (by omega)]
  · have hpos : 0 < natOfDigits ds := Nat.pos_of_ne_zero h0
    rw [if_neg (by omega), Nat.cast_one, mul_one, jsRoundD_int]
    by_cases hcap : natOfDigits ds ≤ 10 ^ 12
    · rw [if_neg (by norm_num; omega), if_pos ⟨hpos, hcap⟩]
    · rw [if_pos (by norm_num; omega), if_neg (by omega)]

theorem parseAmount_digits {ds : List Char} (h1 : ds ≠ []) (h2 : ds.all isDig = true) :
    parseAmount (String.mk ds) =
      if 0 < natOfDigits ds ∧ natOfDigits ds ≤ 10 ^ 12 then some ((natOfDigits ds : ℤ))
      else none := by
  simp only [parseAmount]
  rw [if_neg (by simp [h1]), cleanAmount_digits h2]
  rw [@hasSuffix_false_of_digits ds ['t', 'r'] 'r' h2 (by simp) (by decide),
    @hasSuffix_false_of_digits ds ['t', 'r', 'i', 'e', 'u'] 'r' h2 (by simp)
      (by decide),
    kDigitSuffix_digits h2,
    @hasSuffix_false_of_digits ds ['k'] 'k' h2 (by simp) (by decide),
    @hasSuffix_false_of_digits ds ['m'] 'm' h2 (by simp) (by decide)]
  simp only [Bool.or_false, Bool.false_eq_true, if_false]
  exact finishAmount_digits h1 h2

theorem parseAmount_eq_of_clean {l l' : List Char} (h1 : l ≠ []) (h2 : l' ≠ [])
    (h : cleanAmount l = cleanAmount l') :
    parseAmount (String.mk l) = parseAmount (String.mk l') := by
  simp only [parseAmount]
  rw [if_neg (show ¬(l.isEmpty = true) by simp [h1]), h,
    if_neg (show ¬(l'.isEmpty = true) by simp [h2])]

theorem cleanAmount_dot_digits {d1 d2 : List Char} (g1 : d1.all isDig = true)
    (g2 : d2.all isDig = true) :
    cleanAmount (d1 ++ '.' :: d2) = d1 ++ d2 := by
  unfold cleanAmount
  rw [List.map_append, List.map_cons, map_jsToLower_digits g1, map_jsToLower_digits g2,
    jsToLower_fixed_of_toNat_lt (by decide), List.filter_append,
    List.filter_cons_of_neg (by decide), filter_amountKeep_digits g1,
    filter_amountKeep_digits g2, jsTrim_all_nonWs (all_nonWs_of_digits (by simp [g1, g2]))]

/-- Claim C5 counterexample: the compound `<int>k<int>` branch of
`parseAmount` returns its value without the `10^12` ceiling check, so
`'2000000000k5'` parses to `2000000000500 > 10^12` even though the claim
declares every value above `10^12` invalid. -/
theorem C5_counterexample :
    parseAmount "2000000000k5" = some 2000000000500 ∧
      (1000000000000 : ℤ) < 2000000000500 :=
  ⟨by decide, by decide⟩

/-- Claim C5 (amended): `parseAmount` maps `'50k'` to 50000, `'1tr'` to
1000000 and `'50k5'` to 50500; it rejects `'0'`, `'-5k'` and `'abc'`; and
every accepted value above `10^12` can only come out of the compound
`<int>k<int>` branch, which returns `main*1000 + dec*100` without the
ceiling check — all other branches enforce the `10^12` ceiling. -/
theorem C5_amount_grammar :
    parseAmount "50k" = some 50000 ∧ parseAmount "1tr" = some 1000000 ∧
    parseAmount "50k5" = some 50500 ∧ parseAmount "0" = none ∧
    parseAmount "-5k" = none ∧ parseAmount "abc" = none ∧
    ∀ s v, parseAmount s = some v →
      v ≤ 1000000000000 ∨
        ∃ m d : ℕ, compoundKSplit (cleanAmount s.data) = some (m, d) ∧
          v = (m : ℤ) * 1000 + (d : ℤ) * 100 :=
  ⟨by decide, by decide, by decide, by decide, by decide, by decide,
    fun _ _ h => parseAmount_cap h⟩

/-- Witness for C5: the ceiling disjunction instantiated at `'10'`. -/
theorem C5_amount_grammar_witness :
    (10 : ℤ) ≤ 1000000000000 ∨
      ∃ m d : ℕ, compoundKSplit (cleanAmount "10".data) = some (m, d) ∧
        (10 : ℤ) = (m : ℤ) * 1000 + (d : ℤ) * 100 :=
  C5_amount_grammar.2.2.2.2.2.2 "10" 10 (by decide)

/-- Claim C6 counterexample: `'1.5'` carries no recognized suffix and
denotes 3/2, whose nearest integer is 2, but `parseAmount` strips the
dot as a separator and returns 15. -/
theorem C6_counterexample :
    parseAmount "1.5" = some 15 ∧ jsRoundQ ((3 : ℚ) / 2) = 2 ∧ (15 : ℤ) ≠ 2 := by
  refine ⟨by decide, ?_, by decide⟩
  unfold jsRoundQ
  norm_num

/-- Claim C6 (amended): for suffix-free numeric tokens the decimal point
is stripped as a separator, not interpreted positionally: a token
`d1.d2` parses exactly like the concatenation `d1d2`, and a pure digit
token yields its integer value when positive and at most `10^12` (no
fractional rounding can occur, the separators being removed before
`parseFloat` runs). -/
theorem C6_no_suffix :
    (∀ d1 d2 : List Char, d1 ≠ [] → d1.all isDig = true → d2.all isDig = true →
        parseAmount (String.mk (d1 ++ '.' :: d2)) = parseAmount (String.mk (d1 ++ d2))) ∧
    (∀ ds : List Char, ds ≠ [] → ds.all isDig = true →
        parseAmount (String.mk ds) =
          if 0 < natOfDigits ds ∧ natOfDigits ds ≤ 10 ^ 12 then
            some ((natOfDigits ds : ℤ))
          else none) := by
  constructor
  · intro d1 d2 h1 g1 g2
    refine parseAmount_eq_of_clean (by simp [h1]) (by simp [h1]) ?_
    rw [cleanAmount_dot_digits g1 g2, cleanAmount_digits (by simp [g1, g2])]
  · intro ds h1 h2
    exact parseAmount_digits h1 h2

/-- Witness for C6: both conjuncts instantiated at `'1.5'` and `'25'`. -/
theorem C6_no_suffix_witness :
    parseAmount (String.mk ['1', '.', '5']) = parseAmount (String.mk ['1', '5']) ∧
      parseAmount (String.mk ['2', '5']) =
        (if 0 < natOfDigits ['2', '5'] ∧ natOfDigits ['2', '5'] ≤ 10 ^ 12 then
          some ((natOfDigits ['2', '5'] : ℤ))
        else none) :=
  ⟨C6_no_suffix.1 ['1'] ['5'] (by decide) (by decide) (by decide),
    C6_no_suffix.2 ['2', '5'] (by decide) (by decide)⟩

/-
The confirmation state machine (claim C2).
-/

theorem finalizeDebt_notFound {uid code ns : String} {st : List Txn}
    (h : ∀ t ∈ st, t.debtCode ≠ code) :
    finalizeDebt uid code ns st = (.notFound, st) := by
  induction st with
  | nil => rfl
  | cons t ts ih =>
      rw [finalizeDebt, if_neg (h t (List.mem_cons_self t ts)),
        ih (fun u hu => h u (List.mem_cons_of_mem t hu))]

theorem finalizeDebt_already {uid code ns : String} {pre post : List Txn} {t : Txn}
    (hpre : ∀ u ∈ pre, u.debtCode ≠ code) (ht : t.debtCode = code)
    (hs : t.status ≠ "PENDING") :
    finalizeDebt uid code ns (pre ++ t :: post) = (.alreadyProcessed, pre ++ t :: post) := by
  induction pre with
  | nil =>
      rw [List.nil_append, finalizeDebt, if_pos ht, if_pos hs]
  | cons u pre ih =>
      rw [List.cons_append, finalizeDebt, if_neg (hpre u (List.mem_cons_self u pre)),
        ih (fun w hw => hpre w (List.mem_cons_of_mem u hw))]

theorem finalizeDebt_notAuth {uid code ns : String} {pre post : List Txn} {t : Txn}
    (hpre : ∀ u ∈ pre, u.debtCode ≠ code) (ht : t.debtCode = code)
    (hs : t.status = "PENDING") (hu : t.debtorUserId ≠ uid) :
    finalizeDebt uid code ns (pre ++ t :: post) = (.notAuthorized, pre ++ t :: post) := by
  induction pre with
  | nil =>
      rw [List.nil_append, finalizeDebt, if_pos ht, if_neg (by simp [hs]), if_pos hu]
  | cons u pre ih =>
      rw [List.cons_append, finalizeDebt, if_neg (hpre u (List.mem_cons_self u pre)),
        ih (fun w hw => hpre w (List.mem_cons_of_mem u hw))]

theorem finalizeDebt_success {uid code ns : String} {pre post : List Txn} {t : Txn}
    (hpre : ∀ u ∈ pre, u.debtCode ≠ code) (ht : t.debtCode = code)
    (hs : t.status = "PENDING") (hu : t.debtorUserId = uid) :
    finalizeDebt uid code ns (pre ++ t :: post) =
      (.done, pre ++ { t with status := ns } :: post) := by
  induction pre with
  | nil =>
      rw [List.nil_append, finalizeDebt, if_pos ht, if_neg (by simp [hs]),
        if_neg (by simp [hu])]
      simp
  | cons u pre ih =>
      rw [List.cons_append, finalizeDebt, if_neg (hpre u (List.mem_cons_self u pre)),
        ih (fun w hw => hpre w (List.mem_cons_of_mem u hw))]
      simp

/-- Claim C2: on the ledger, confirmation and rejection leave the sheet
unchanged for an unknown code (not-found), a non-PENDING row (already
processed) and a caller other than the row's `DebtorUserID` (not
authorized); the only successful transitions take the first row carrying
the code from PENDING to CONFIRMED (confirm) or REJECTED (reject), touch
no other row, and a second confirm or reject on the same code afterwards
reports already-processed and changes nothing — a pending transaction is
finalized at most once. -/
theorem C2 : ∀ (uid code : String) (pre post : List Txn) (t : Txn),
    (∀ st, (∀ u ∈ st, u.debtCode ≠ code) →
      handleConfirmDebt st uid code = (.notFound, st) ∧
      handleRejectDebt st uid code = (.notFound, st)) ∧
    ((∀ u ∈ pre, u.debtCode ≠ code) → t.debtCode = code →
      (t.status ≠ "PENDING" →
        handleConfirmDebt (pre ++ t :: post) uid code =
          (.alreadyProcessed, pre ++ t :: post) ∧
        handleRejectDebt (pre ++ t :: post) uid code =
          (.alreadyProcessed, pre ++ t :: post)) ∧
      (t.status = "PENDING" → t.debtorUserId ≠ uid →
        handleConfirmDebt (pre ++ t :: post) uid code =
          (.notAuthorized, pre ++ t :: post) ∧
        handleRejectDebt (pre ++ t :: post) uid code =
          (.notAuthorized, pre ++ t :: post)) ∧
      (t.status = "PENDING" → t.debtorUserId = uid →
        handleConfirmDebt (pre ++ t :: post) uid code =
          (.done, pre ++ { t with status := "CONFIRMED" } :: post) ∧
        handleRejectDebt (pre ++ t :: post) uid code =
          (.done, pre ++ { t with status := "REJECTED" } :: post) ∧
        (∀ uid2 ns2,
          finalizeDebt uid2 code ns2
              (pre ++ { t with status := "CONFIRMED" } :: post) =
            (.alreadyProcessed, pre ++ { t with status := "CONFIRMED" } :: post) ∧
          finalizeDebt uid2 code ns2
              (pre ++ { t with status := "REJECTED" } :: post) =
            (.alreadyProcessed, pre ++ { t with status := "REJECTED" } :: post)))) := by
  intro uid code pre post t
  refine ⟨fun st h => ⟨finalizeDebt_notFound h, finalizeDebt_notFound h⟩, ?_⟩
  intro hpre ht
  refine ⟨fun hs => ⟨finalizeDebt_already hpre ht hs, finalizeDebt_already hpre ht hs⟩,
    fun hs hu => ⟨finalizeDebt_notAuth hpre ht hs hu, finalizeDebt_notAuth hpre ht hs hu⟩,
    fun hs hu => ⟨finalizeDebt_success hpre ht hs hu, finalizeDebt_success hpre ht hs hu,
      fun uid2 ns2 => ⟨?_, ?_⟩⟩⟩
  · exact finalizeDebt_already hpre ht (by simp)
  · exact finalizeDebt_already hpre ht (by simp)

/-- Witness for C2, exercised on a one-row ledger: a stranger is refused,
the counterparty confirms, and the second attempt reports
already-processed. -/
theorem C2_witness :
    (handleConfirmDebt [⟨"d", "A", "Bao", "DEBT", 50000, "x", "B", "PENDING", "C1"⟩]
        "X" "C1" =
      (.notAuthorized, [⟨"d", "A", "Bao", "DEBT", 50000, "x", "B", "PENDING", "C1"⟩]) ∧
      handleRejectDebt [⟨"d", "A", "Bao", "DEBT", 50000, "x", "B", "PENDING", "C1"⟩]
        "X" "C1" =
      (.notAuthorized, [⟨"d", "A", "Bao", "DEBT", 50000, "x", "B", "PENDING", "C1"⟩])) ∧
    handleConfirmDebt [⟨"d", "A", "Bao", "DEBT", 50000, "x", "B", "PENDING", "C1"⟩]
        "B" "C1" =
      (.done, [⟨"d", "A", "Bao", "DEBT", 50000, "x", "B", "CONFIRMED", "C1"⟩]) ∧
    finalizeDebt "B" "C1" "CONFIRMED"
        [⟨"d", "A", "Bao", "DEBT", 50000, "x", "B", "CONFIRMED", "C1"⟩] =
      (.alreadyProcessed, [⟨"d", "A", "Bao", "DEBT", 50000, "x", "B", "CONFIRMED", "C1"⟩]) := by
  have h := C2 "X" "C1" [] [] ⟨"d", "A", "Bao", "DEBT", 50000, "x", "B", "PENDING", "C1"⟩
  have h2 := C2 "B" "C1" [] [] ⟨"d", "A", "Bao", "DEBT", 50000, "x", "B", "PENDING", "C1"⟩
  refine ⟨(h.2 (by simp) rfl).2.1 rfl (by decide), ?_, ?_⟩
  · exact ((h2.2 (by simp) rfl).2.2 rfl rfl).1
  · exact (((h2.2 (by simp) rfl).2.2 rfl rfl).2.2 "B" "CONFIRMED").1

/-
UNDO (claim C7): `deleteLastTransaction` removes exactly the caller's last
own row.
-/

theorem getLast?_none_eq_nil {α : Type} {l : List α} (h : l.getLast? = none) : l = [] := by
  cases l with
  | nil => rfl
  | cons b bs => simp [List.getLast?] at h

theorem getLast?_cons_of_ne {α : Type} (a : α) {l : List α} (h : l ≠ []) :
    (a :: l).getLast? = l.getLast? := by
  cases l with
  | nil => exact absurd rfl h
  | cons b bs => exact List.getLast?_cons_cons

theorem dropLast_cons_of_ne {α : Type} (a : α) {l : List α} (h : l ≠ []) :
    (a :: l).dropLast = a :: l.dropLast := by
  cases l with
  | nil => exact absurd rfl h
  | cons b bs => rfl

theorem removeLastBy_fst (p : Txn → Bool) (l : List Txn) :
    (removeLastBy p l).1 = (l.filter p).getLast? := by
  induction l with
  | nil => rfl
  | cons t ts ih =>
      rw [removeLastBy]
      cases hr : removeLastBy p ts with
      | mk o rest =>
          rw [hr] at ih
          cases o with
          | some d =>
              simp only
              rw [List.filter_cons]
              by_cases hp : p t
              · have hne : ts.filter p ≠ [] := by
                  intro hnil
                  rw [hnil] at ih
                  simp at ih
                rw [if_pos hp, getLast?_cons_of_ne t hne]
                exact ih
              · rw [if_neg hp]
                exact ih
          | none =>
              have hts : ts.filter p = [] := getLast?_none_eq_nil ih.symm
              simp only
              by_cases hp : p t
              · rw [if_pos hp, List.filter_cons, if_pos hp, hts]
                rfl
              · rw [if_neg hp, List.filter_cons, if_neg hp, hts]
                rfl

theorem removeLastBy_none_snd (p : Txn → Bool) (l : List Txn)
    (h : (removeLastBy p l).1 = none) : (removeLastBy p l).2 = l := by
  induction l with
  | nil => rfl
  | cons t ts ih =>
      rw [removeLastBy] at h ⊢
      cases hr : removeLastBy p ts with
      | mk o rest =>
          cases o with
          | some d => simp [hr] at h
          | none =>
              by_cases hp : p t
              · simp [hr, hp] at h
              · simp [hp]

theorem removeLastBy_filter_p (p : Txn → Bool) (l : List Txn) :
    (removeLastBy p l).2.filter p = (l.filter p).dropLast := by
  induction l with
  | nil => rfl
  | cons t ts ih =>
      rw [removeLastBy]
      cases hr : removeLastBy p ts with
      | mk o rest =>
          rw [hr] at ih
          cases o with
          | some d =>
              have hne : ts.filter p ≠ [] := by
                intro hnil
                have := removeLastBy_fst p ts
                rw [hr, hnil] at this
                simp at this
              simp only
              rw [List.filter_cons, List.filter_cons]
              by_cases hp : p t
              · rw [if_pos hp, if_pos hp, dropLast_cons_of_ne t hne, ih]
              · rw [if_neg hp, if_neg hp, ih]
          | none =>
              have hts : ts.filter p = [] := by
                have := removeLastBy_fst p ts
                rw [hr] at this
                exact getLast?_none_eq_nil this.symm
              by_cases hp : p t
              · simp [List.filter_cons, hp, hts]
              · simp [List.filter_cons, hp, hts]

theorem removeLastBy_filter_not (p : Txn → Bool) (l : List Txn) :
    (removeLastBy p l).2.filter (fun t => !p t) = l.filter (fun t => !p t) := by
  induction l with
  | nil => rfl
  | cons t ts ih =>
      rw [removeLastBy]
      cases hr : removeLastBy p ts with
      | mk o rest =>
          rw [hr] at ih
          cases o with
          | some d =>
              simp only
              rw [List.filter_cons, List.filter_cons]
              by_cases hp : p t
              · rw [if_neg (by simp [hp]), if_neg (by simp [hp]), ih]
              · rw [if_pos (by simp [hp]), if_pos (by simp [hp]), ih]
          | none =>
              simp only
              by_cases hp : p t
              · rw [if_pos hp, List.filter_cons, if_neg (by simp [hp])]
              · rw [if_neg hp]

/-- Claim C7: UNDO deletes exactly the invoking party's own most recently
created row, selected by insertion order regardless of status: when the
party created no rows the ledger is returned unchanged with a
nothing-to-undo result; otherwise the deleted row is the last own row,
the own rows of the result are the previous ones minus that last row, and
rows created by other parties — including rows merely naming the invoker
as counterparty — are all preserved. -/
theorem C7_undo : ∀ (uid : String) (st : List Txn),
    (st.filter (fun t => t.userId == uid) = [] →
      deleteLastTransaction uid st = (none, st)) ∧
    (deleteLastTransaction uid st).1 = (st.filter (fun t => t.userId == uid)).getLast? ∧
    (deleteLastTransaction uid st).2.filter (fun t => t.userId == uid) =
      (st.filter (fun t => t.userId == uid)).dropLast ∧
    (deleteLastTransaction uid st).2.filter (fun t => !(t.userId == uid)) =
      st.filter (fun t => !(t.userId == uid)) := by
  intro uid st
  refine ⟨?_, removeLastBy_fst _ st, removeLastBy_filter_p _ st,
    removeLastBy_filter_not _ st⟩
  intro hnil
  have h1 : (deleteLastTransaction uid st).1 = none := by
    rw [deleteLastTransaction, removeLastBy_fst _ st, hnil]
    rfl
  have h2 : (deleteLastTransaction uid st).2 = st :=
    removeLastBy_none_snd (fun t => t.userId == uid) st h1
  calc deleteLastTransaction uid st
      = ((deleteLastTransaction uid st).1, (deleteLastTransaction uid st).2) := rfl
    _ = (none, st) := by rw [h1, h2]

/-- Witness for C7: a two-row ledger where B's row names A as counterparty;
A's undo deletes only A's row, and an undo by a party with no rows is a
no-op. -/
theorem C7_undo_witness :
    deleteLastTransaction "A"
        [⟨"d", "A", "Bao", "DEBT", 1, "x", "", "CONFIRMED", ""⟩,
         ⟨"d", "B", "An", "DEBT", 2, "y", "A", "PENDING", "K1"⟩] =
      (some ⟨"d", "A", "Bao", "DEBT", 1, "x", "", "CONFIRMED", ""⟩,
        [⟨"d", "B", "An", "DEBT", 2, "y", "A", "PENDING", "K1"⟩]) ∧
    deleteLastTransaction "Z"
        [⟨"d", "A", "Bao", "DEBT", 1, "x", "", "CONFIRMED", ""⟩] =
      (none, [⟨"d", "A", "Bao", "DEBT", 1, "x", "", "CONFIRMED", ""⟩]) := by
  constructor
  · decide
  · exact (C7_undo "Z" [⟨"d", "A", "Bao", "DEBT", 1, "x", "", "CONFIRMED", ""⟩]).1
      (by decide)

/-
Alias uniqueness (claim C8).
-/

theorem updateFirst_filter_own {uid nm now : String} {rows : List AliasRow}
    (hpw : rows.Pairwise (fun r1 r2 => r1.userId ≠ r2.userId))
    (hany : rows.any (fun r => r.userId == uid) = true) :
    (updateFirstAliasRow uid nm now rows).filter (fun r => r.userId == uid) =
      [⟨uid, nm, now⟩] := by
  induction rows with
  | nil => cases hany
  | cons r rs ih =>
      rw [List.pairwise_cons] at hpw
      by_cases hr : r.userId = uid
      · rw [updateFirstAliasRow, if_pos hr, List.filter_cons,
          if_pos (by simp [hr])]
        have hnone : rs.filter (fun q => q.userId == uid) = [] := by
          rw [List.filter_eq_nil_iff]
          intro q hq
          simp only [beq_iff_eq]
          rw [← hr]
          exact fun he => hpw.1 q hq he.symm
        rw [hnone, hr]
      · rw [updateFirstAliasRow, if_neg hr, List.filter_cons, if_neg (by simp [hr])]
        refine ih hpw.2 ?_
        rw [List.any_cons] at hany
        simpa [hr] using hany

theorem updateFirst_filter_other {uid nm now : String} {rows : List AliasRow} :
    (updateFirstAliasRow uid nm now rows).filter (fun r => !(r.userId == uid)) =
      rows.filter (fun r => !(r.userId == uid)) := by
  induction rows with
  | nil => rfl
  | cons r rs ih =>
      by_cases hr : r.userId = uid
      · rw [updateFirstAliasRow, if_pos hr, List.filter_cons, List.filter_cons,
          if_neg (by simp [hr]), if_neg (by simp [hr])]
      · rw [updateFirstAliasRow, if_neg hr, List.filter_cons, List.filter_cons,
          if_pos (by simp [hr]), if_pos (by simp [hr]), ih]

theorem updateFirst_length {uid nm now : String} {rows : List AliasRow} :
    (updateFirstAliasRow uid nm now rows).length = rows.length := by
  induction rows with
  | nil => rfl
  | cons r rs ih =>
      by_cases hr : r.userId = uid
      · rw [updateFirstAliasRow, if_pos hr, List.length_cons, List.length_cons]
      · rw [updateFirstAliasRow, if_neg hr, List.length_cons, List.length_cons, ih]

/-- Claim C8: with a well-formed Aliases table, `setAlias` rejects a name
whose normalization is already held by a different party and performs no
write; in every other case (a free name, or re-claiming a name the caller
already holds) it succeeds, keeping exactly one row for the caller —
updated in place when one existed, appended otherwise — and leaving every
other party's row untouched. -/
theorem C8_setAlias : ∀ (now : String) (rows : List AliasRow) (uid nm : String),
    AliasWF rows →
    ((∃ r ∈ rows, r.userId ≠ uid ∧
        normalizeVietnamese r.name = normalizeVietnamese nm) →
      setAlias now rows uid nm = (false, rows)) ∧
    ((∀ r ∈ rows, r.userId ≠ uid →
        normalizeVietnamese r.name ≠ normalizeVietnamese nm) →
      (setAlias now rows uid nm).1 = true ∧
      (setAlias now rows uid nm).2.filter (fun r => r.userId == uid) =
        [⟨uid, nm, now⟩] ∧
      (setAlias now rows uid nm).2.filter (fun r => !(r.userId == uid)) =
        rows.filter (fun r => !(r.userId == uid)) ∧
      (setAlias now rows uid nm).2.length =
        (if rows.any (fun r => r.userId == uid) then rows.length
         else rows.length + 1)) := by
  intro now rows uid nm hwf
  have hpwU : rows.Pairwise (fun r1 r2 => r1.userId ≠ r2.userId) :=
    hwf.2.imp (fun h => h.1)
  constructor
  · rintro ⟨r, hrmem, hruid, hrnorm⟩
    have hfind : (findAliasRowByNorm rows nm).isSome := by
      refine List.find?_isSome.mpr ⟨r, hrmem, ?_⟩
      simp [hwf.1 r hrmem, hrnorm]
    obtain ⟨r0, hr0⟩ := Option.isSome_iff_exists.mp hfind
    have hr0mem : r0 ∈ rows := List.mem_of_find?_eq_some hr0
    have hr0p := List.find?_some hr0
    rw [Bool.and_eq_true, beq_iff_eq] at hr0p
    have hr0r : r0 = r := by
      by_contra hne
      have := (hwf.2.forall (fun a b h => ⟨Ne.symm h.1, Ne.symm h.2⟩)) hr0mem hrmem hne
      exact this.2 (hr0p.2.trans hrnorm.symm)
    unfold setAlias
    rw [hr0, hr0r]
    simp [hruid]
  · intro hfree
    have hself : ∀ r0, findAliasRowByNorm rows nm = some r0 → r0.userId = uid := by
      intro r0 hr0
      have hr0mem : r0 ∈ rows := List.mem_of_find?_eq_some hr0
      have hr0p := List.find?_some hr0
      rw [Bool.and_eq_true, beq_iff_eq] at hr0p
      by_contra hne
      exact hfree r0 hr0mem hne hr0p.2
    have hres : setAlias now rows uid nm =
        (true, if rows.any (fun r => r.userId == uid) then
          updateFirstAliasRow uid nm now rows else rows ++ [⟨uid, nm, now⟩]) := by
      unfold setAlias
      cases hr0 : findAliasRowByNorm rows nm with
      | none => rfl
      | some r0 => simp [hself r0 hr0]
    rw [hres]
    by_cases hany : rows.any (fun r => r.userId == uid) = true
    · rw [if_pos hany]
      refine ⟨rfl, updateFirst_filter_own hpwU hany, updateFirst_filter_other, ?_⟩
      rw [if_pos hany, updateFirst_length]
    · rw [if_neg hany, if_neg hany]
      have hany2 : rows.any (fun r => r.userId == uid) = false :=
        Bool.eq_false_iff.mpr hany
      have hnone : rows.filter (fun r => r.userId == uid) = [] := by
        rw [List.filter_eq_nil_iff]
        intro a ha
        simpa using List.any_eq_false.mp hany2 a ha
      refine ⟨rfl, ?_, ?_, by simp⟩
      · rw [List.filter_append, hnone, List.filter_cons, if_pos (by simp)]
        rfl
      · rw [List.filter_append, List.filter_cons, if_neg (by simp)]
        simp

/-- Witness for C8: with A holding `Tuan`, B cannot claim `tuấn`, while a
fresh name for B is appended and A's row is untouched. -/
theorem C8_setAlias_witness :
    (setAlias "t1" [⟨"A", "Tuan", "t0"⟩] "B" "tuấn" = (false, [⟨"A", "Tuan", "t0"⟩])) ∧
    ((setAlias "t1" [⟨"A", "Tuan", "t0"⟩] "B" "Bao").1 = true ∧
      (setAlias "t1" [⟨"A", "Tuan", "t0"⟩] "B" "Bao").2.filter
          (fun r => r.userId == "B") = [⟨"B", "Bao", "t1"⟩] ∧
      (setAlias "t1" [⟨"A", "Tuan", "t0"⟩] "B" "Bao").2.filter
          (fun r => !(r.userId == "B")) =
        [⟨"A", "Tuan", "t0"⟩].filter (fun r => !(r.userId == "B")) ∧
      (setAlias "t1" [⟨"A", "Tuan", "t0"⟩] "B" "Bao").2.length =
        (if [(⟨"A", "Tuan", "t0"⟩ : AliasRow)].any (fun r => r.userId == "B") then 1
         else 2)) := by
  have hwf : AliasWF [⟨"A", "Tuan", "t0"⟩] := by
    constructor
    · intro r hr
      rw [List.mem_singleton] at hr
      rw [hr]
      decide
    · exact List.pairwise_singleton _ _
  constructor
  · exact (C8_setAlias "t1" [⟨"A", "Tuan", "t0"⟩] "B" "tuấn" hwf).1
      (Exists.intro (⟨"A", "Tuan", "t0"⟩ : AliasRow) ⟨by simp, by decide, by decide⟩)
  · exact (C8_setAlias "t1" [⟨"A", "Tuan", "t0"⟩] "B" "Bao" hwf).2
      (by
        intro r hr _
        rw [List.mem_singleton] at hr
        rw [hr]
        decide)

/-
Transaction creation (claim C1) and the balance aggregator (claims C3, C4).
-/

/-- Claim C1 counterexample: with no FriendLink rows at all — so no ACTIVE
link exists for the creator — but a global alias `bao` registered by party
B, a `DEBT @bao` from A is stored PENDING with a fresh code and B as
`DebtorUserID`, because `getFriendUserId` falls back to the global Aliases
directory; the claim requires CONFIRMED with an empty code here. -/
theorem C1_counterexample :
    (handleAddDebt [] [⟨"B", "bao", "t0"⟩] "d" "K1" "A" 50000 (some "bao") "x").2 =
      some ⟨"d", "A", "bao", "DEBT", 50000, "x", "B", "PENDING", "K1"⟩ := by decide

/-- Claim C1 (amended): for a DEBT or PAID command with a non-empty,
non-numeric counterparty label, the appended row is PENDING with the
freshly generated code and the resolved user id exactly when
`getFriendUserId` resolves the label — through an ACTIVE FriendLink
directional alias or, failing that, through the global Aliases directory
— and CONFIRMED with an empty code and empty `DebtorUserID` otherwise. -/
theorem C1_pending_iff :
    ∀ (links : List FriendLinkRow) (aliases : List AliasRow)
      (now code uid : String) (amount : ℤ) (d content : String),
      d ≠ "" → d.data.all isDig = false →
      ((handleAddDebt links aliases now code uid amount (some d) content =
        (.ok ((getFriendUserId aliases uid d links).getD "" ≠ ""),
          some ⟨now, uid, d, "DEBT", amount, content,
            (getFriendUserId aliases uid d links).getD "",
            (if (getFriendUserId aliases uid d links).getD "" ≠ "" then "PENDING"
             else "CONFIRMED"),
            (if (getFriendUserId aliases uid d links).getD "" ≠ "" then code
             else "")⟩)) ∧
      (handleRepayDebt links aliases now code uid amount (some d) content =
        (.ok ((getFriendUserId aliases uid d links).getD "" ≠ ""),
          some ⟨now, uid, d, "PAID", amount, content,
            (getFriendUserId aliases uid d links).getD "",
            (if (getFriendUserId aliases uid d links).getD "" ≠ "" then "PENDING"
             else "CONFIRMED"),
            (if (getFriendUserId aliases uid d links).getD "" ≠ "" then code
             else "")⟩)) ∧
      ((if (getFriendUserId aliases uid d links).getD "" ≠ "" then "PENDING"
        else "CONFIRMED") = "PENDING" ↔
        (getFriendUserId aliases uid d links).getD "" ≠ "")) := by
  intro links aliases now code uid amount d content hd hdig
  have hidx : (!d.data.isEmpty && d.data.all isDig) = false := by
    rw [hdig, Bool.and_false]
  have hbody : ∀ kind : String,
      addEntry links aliases now code kind uid amount (some d) content =
        (.ok ((getFriendUserId aliases uid d links).getD "" ≠ ""),
          some ⟨now, uid, d, kind, amount, content,
            (getFriendUserId aliases uid d links).getD "",
            (if (getFriendUserId aliases uid d links).getD "" ≠ "" then "PENDING"
             else "CONFIRMED"),
            (if (getFriendUserId aliases uid d links).getD "" ≠ "" then code
             else "")⟩) := by
    intro kind
    unfold addEntry
    rw [show truthyS (some d) = some d by simp [truthyS, hd]]
    simp only [hidx, Bool.false_eq_true, if_false]
    rw [if_neg (fun h => hd h)]
  refine ⟨hbody "DEBT", hbody "PAID", ?_⟩
  by_cases h : (getFriendUserId aliases uid d links).getD "" ≠ ""
  · simp [h]
  · simp [h]

/-- Witness for C1: a linked pair produces a PENDING row through the
amended rule. -/
theorem C1_pending_iff_witness :
    handleAddDebt [⟨"A", "B", "Bao", "Tuan", "AUTO", "ACTIVE", "t", ""⟩] []
        "d" "K2" "A" 7 (some "Bao") "x" =
      (.ok ((getFriendUserId [] "A" "Bao"
          [⟨"A", "B", "Bao", "Tuan", "AUTO", "ACTIVE", "t", ""⟩]).getD "" ≠ ""),
        some ⟨"d", "A", "Bao", "DEBT", 7, "x",
          (getFriendUserId [] "A" "Bao"
            [⟨"A", "B", "Bao", "Tuan", "AUTO", "ACTIVE", "t", ""⟩]).getD "",
          (if (getFriendUserId [] "A" "Bao"
              [⟨"A", "B", "Bao", "Tuan", "AUTO", "ACTIVE", "t", ""⟩]).getD "" ≠ ""
           then "PENDING" else "CONFIRMED"),
          (if (getFriendUserId [] "A" "Bao"
              [⟨"A", "B", "Bao", "Tuan", "AUTO", "ACTIVE", "t", ""⟩]).getD "" ≠ ""
           then "K2" else "")⟩) :=
  (C1_pending_iff [⟨"A", "B", "Bao", "Tuan", "AUTO", "ACTIVE", "t", ""⟩] []
    "d" "K2" "A" 7 "Bao" "x" (by decide) (by decide)).1

/-- Claim C3: for a single CONFIRMED DEBT row of amount `X` created by `A`
with `B` recorded as counterparty id, `A`'s computed balance toward the
counterparty bucket is `+X`, `B`'s computed balance toward the creator's
bucket is `-X`, and the two are additive inverses. -/
theorem C3_netting :
    ∀ (links : List FriendLinkRow) (aliases : List AliasRow)
      (A B label now code content : String) (X : ℤ),
      A ≠ B →
      balanceToward (handleCheckDebt links aliases A none false
          [⟨now, A, label, "DEBT", X, content, B, "CONFIRMED", code⟩])
          (statKey (if label = "" then "Chung" else label)) = X ∧
      balanceToward (handleCheckDebt links aliases B none false
          [⟨now, A, label, "DEBT", X, content, B, "CONFIRMED", code⟩])
          (statKey (counterDisplayName (getLinkedFriends links aliases B) aliases A)) =
        -X ∧
      balanceToward (handleCheckDebt links aliases A none false
          [⟨now, A, label, "DEBT", X, content, B, "CONFIRMED", code⟩])
          (statKey (if label = "" then "Chung" else label)) =
        -(balanceToward (handleCheckDebt links aliases B none false
            [⟨now, A, label, "DEBT", X, content, B, "CONFIRMED", code⟩])
            (statKey (counterDisplayName (getLinkedFriends links aliases B) aliases A))) := by
  intro links aliases A B label now code content X hAB
  have hA : balanceToward (handleCheckDebt links aliases A none false
      [⟨now, A, label, "DEBT", X, content, B, "CONFIRMED", code⟩])
      (statKey (if label = "" then "Chung" else label)) = X := by
    simp [handleCheckDebt, statStep, rowView, bumpStat, passesFilter, truthyS,
      balanceToward]
  have hB : balanceToward (handleCheckDebt links aliases B none false
      [⟨now, A, label, "DEBT", X, content, B, "CONFIRMED", code⟩])
      (statKey (counterDisplayName (getLinkedFriends links aliases B) aliases A)) =
      -X := by
    simp [handleCheckDebt, statStep, rowView, bumpStat, passesFilter, truthyS,
      balanceToward, Ne.symm hAB, hAB]
  exact ⟨hA, hB, by rw [hA, hB, neg_neg]⟩

/-- Witness for C3, at a concrete one-row ledger. -/
theorem C3_netting_witness :
    balanceToward (handleCheckDebt [] [⟨"A", "Tuan", "t"⟩] "A" none false
        [⟨"d", "A", "Bao", "DEBT", 50000, "x", "B", "CONFIRMED", "K"⟩])
        (statKey (if ("Bao" : String) = "" then "Chung" else "Bao")) = 50000 ∧
      balanceToward (handleCheckDebt [] [⟨"A", "Tuan", "t"⟩] "B" none false
          [⟨"d", "A", "Bao", "DEBT", 50000, "x", "B", "CONFIRMED", "K"⟩])
          (statKey (counterDisplayName
            (getLinkedFriends [] [⟨"A", "Tuan", "t"⟩] "B") [⟨"A", "Tuan", "t"⟩] "A")) =
        -50000 ∧
      balanceToward (handleCheckDebt [] [⟨"A", "Tuan", "t"⟩] "A" none false
          [⟨"d", "A", "Bao", "DEBT", 50000, "x", "B", "CONFIRMED", "K"⟩])
          (statKey (if ("Bao" : String) = "" then "Chung" else "Bao")) =
        -(balanceToward (handleCheckDebt [] [⟨"A", "Tuan", "t"⟩] "B" none false
            [⟨"d", "A", "Bao", "DEBT", 50000, "x", "B", "CONFIRMED", "K"⟩])
            (statKey (counterDisplayName
              (getLinkedFriends [] [⟨"A", "Tuan", "t"⟩] "B") [⟨"A", "Tuan", "t"⟩] "A"))) :=
  C3_netting [] [⟨"A", "Tuan", "t"⟩] "A" "B" "Bao" "d" "K" "x" 50000 (by decide)

/-- Claim C4: the `onlyOwing` filter restricts the listing to strictly
positive balances, is exactly a filter of the unfiltered listing, never
changes the computed total (which is the sum of debt minus paid over all
buckets either way), and the unfiltered listing is sorted by descending
balance. -/
theorem C4_onlyOwing :
    ∀ (links : List FriendLinkRow) (aliases : List AliasRow) (uid : String)
      (filt : Option String) (ledger : List Txn),
      (handleCheckDebt links aliases uid filt true ledger).totalBalance =
        (handleCheckDebt links aliases uid filt false ledger).totalBalance ∧
      (handleCheckDebt links aliases uid filt true ledger).listing =
        (handleCheckDebt links aliases uid filt false ledger).listing.filter
          (fun d => 0 < d.2) ∧
      (∀ e ∈ (handleCheckDebt links aliases uid filt true ledger).listing, 0 < e.2) ∧
      (handleCheckDebt links aliases uid filt false ledger).listing.Sorted
        (fun a b => b.2 ≤ a.2) ∧
      (handleCheckDebt links aliases uid filt true ledger).totalBalance =
        ((handleCheckDebt links aliases uid filt true ledger).stats.map
            (fun p => p.2.debt)).sum -
          ((handleCheckDebt links aliases uid filt true ledger).stats.map
            (fun p => p.2.paid)).sum := by
  intro links aliases uid filt ledger
  refine ⟨rfl, rfl, ?_, ?_, rfl⟩
  · intro e he
    simp only [handleCheckDebt] at he
    rw [if_pos trivial] at he
    exact of_decide_eq_true (List.mem_filter.mp he).2
  · exact List.sorted_insertionSort _ _

/-
Command classifier theorems (claims C9, C10).
-/

theorem toNat_ranges_of_isHexUp {c : Char} (h : isHexUp c = true) :
    (48 ≤ c.toNat ∧ c.toNat ≤ 57) ∨ (65 ≤ c.toNat ∧ c.toNat ≤ 70) := by
  unfold isHexUp at h
  rw [Bool.or_eq_true] at h
  rcases h with h | h
  · exact Or.inl (toNat_bounds_of_isDig h)
  · rw [Bool.and_eq_true, decide_eq_true_eq, decide_eq_true_eq] at h
    exact Or.inr ⟨h.1, h.2⟩

theorem isJsWs_false_of_print {c : Char} (h1 : 33 ≤ c.toNat) (h2 : c.toNat ≤ 126) :
    isJsWs c = false := by
  unfold isJsWs
  rw [Bool.or_eq_false_iff, Bool.or_eq_false_iff, Bool.or_eq_false_iff,
      Bool.or_eq_false_iff, Bool.or_eq_false_iff, Bool.or_eq_false_iff]
  refine ⟨⟨⟨⟨⟨⟨?_, ?_⟩, ?_⟩, ?_⟩, ?_⟩, ?_⟩, ?_⟩ <;>
    exact decide_eq_false (char_ne_of_toNat (by simp; omega))

theorem isJsWs_false_of_isHexUp {c : Char} (h : isHexUp c = true) : isJsWs c = false := by
  rcases toNat_ranges_of_isHexUp h with ⟨h1, h2⟩ | ⟨h1, h2⟩ <;>
    exact isJsWs_false_of_print (by omega) (by omega)

theorem isCodeChar_of_isHexUp {c : Char} (h : isHexUp c = true) : isCodeChar c = true := by
  unfold isHexUp at h
  unfold isCodeChar
  rw [Bool.or_eq_true] at h ⊢
  rcases h with h | h
  · exact Or.inl (by rw [Bool.or_eq_true]; exact Or.inl h)
  · rw [Bool.and_eq_true, decide_eq_true_eq, decide_eq_true_eq] at h
    refine Or.inr ?_
    rw [Bool.and_eq_true, decide_eq_true_eq, decide_eq_true_eq]
    have h2 : c.toNat ≤ 70 := h.2
    have h3 : c.toNat ≤ 90 := by omega
    exact ⟨h.1, h3⟩

theorem isLower_false_of_toNat_lt {c : Char} (h : c.toNat < 97) : c.isLower = false := by
  simp only [Char.isLower, ge_iff_le]
  rw [Bool.and_eq_false_iff]
  exact Or.inl (decide_eq_false (fun hh : (97 : UInt32) ≤ c.val => by
    have h2 : (97 : ℕ) ≤ c.toNat := hh
    omega))

theorem jsToUpper_fixed_of_isHexUp {c : Char} (h : isHexUp c = true) : jsToUpper c = c := by
  unfold jsToUpper
  rcases toNat_ranges_of_isHexUp h with ⟨h1, h2⟩ | ⟨h1, h2⟩ <;>
    rw [isLower_false_of_toNat_lt (by omega)] <;> simp

theorem map_jsToUpper_hexUp {cd : List Char} (h : cd.all isHexUp = true) :
    cd.map jsToUpper = cd := by
  induction cd with
  | nil => rfl
  | cons c cs ih =>
      simp only [List.all_cons, Bool.and_eq_true] at h
      simp [jsToUpper_fixed_of_isHexUp h.1, ih h.2]

theorem stripLitCI_head_ne {x : Char} {xs : List Char} {c : Char} {cs : List Char}
    (h : jsToLower c ≠ x) : stripLitCI (x :: xs) (c :: cs) = none := by
  simp [stripLitCI, h]

theorem stripWordsCI_head_fail {w : String} {rest : List String} {x : Char}
    {xs : List Char} {c : Char} {cs : List Char} (hw : w.data = x :: xs)
    (h : jsToLower c ≠ x) : stripWordsCI (w :: rest) (c :: cs) = none := by
  rw [stripWordsCI, hw, stripLitCI_head_ne h]

theorem altsRejectHead_elim {a : List String} {c : Char}
    (h : (altHead a).any (fun x => !(jsToLower c == x)) = true) :
    ∃ w rest x xs, a = w :: rest ∧ w.data = x :: xs ∧ jsToLower c ≠ x := by
  cases a with
  | nil => simp [altHead] at h
  | cons w rest =>
      cases hw : w.data with
      | nil => simp [altHead, hw] at h
      | cons x xs =>
          refine ⟨w, rest, x, xs, rfl, hw, ?_⟩
          simp [altHead, hw] at h
          exact h

theorem stripAltCI_head_fail {alts : List (List String)} {c : Char} {cs : List Char}
    (h : altsRejectHead alts c = true) : stripAltCI alts (c :: cs) = none := by
  induction alts with
  | nil => rfl
  | cons a rest ih =>
      unfold altsRejectHead at h
      rw [List.all_cons, Bool.and_eq_true] at h
      obtain ⟨w, arest, x, xs, ha, hw, hne⟩ := altsRejectHead_elim h.1
      rw [stripAltCI, ha, stripWordsCI_head_fail hw hne]
      exact ih h.2

theorem testAlts_head_fail {alts : List (List String)} {c : Char} {cs : List Char}
    (h : altsRejectHead alts c = true) : testAlts alts (c :: cs) = false := by
  unfold testAlts
  rw [List.any_eq_false]
  intro a ha
  obtain ⟨w, arest, x, xs, ha2, hw, hne⟩ :=
    altsRejectHead_elim (List.all_eq_true.mp h a ha)
  rw [ha2, stripWordsCI_head_fail hw hne]
  simp

theorem stripLitCI_split {p : List Char} : ∀ {l r : List Char},
    stripLitCI p l = some r → ∃ c, l = c ++ r ∧ stripLitCI p c = some [] := by
  induction p with
  | nil =>
      intro l r h
      rw [show stripLitCI [] l = some l from rfl, Option.some.injEq] at h
      exact ⟨[], by rw [h]; rfl, rfl⟩
  | cons x xs ih =>
      intro l r h
      cases l with
      | nil => simp [stripLitCI] at h
      | cons y ys =>
          rw [stripLitCI] at h
          by_cases hc : jsToLower y = x
          · rw [if_pos hc] at h
            obtain ⟨c, hc1, hc2⟩ := ih h
            exact ⟨y :: c, by rw [hc1]; rfl, by simp [stripLitCI, hc, hc2]⟩
          · rw [if_neg hc] at h
            cases h

theorem stripLitCI_append {p : List Char} : ∀ {c : List Char},
    stripLitCI p c = some [] → ∀ z, stripLitCI p (c ++ z) = some z := by
  induction p with
  | nil =>
      intro c h z
      have hc : c = [] := by
        rw [show stripLitCI [] c = some c from rfl, Option.some.injEq] at h
        exact h
      rw [hc]
      rfl
  | cons x xs ih =>
      intro c h z
      cases c with
      | nil => simp [stripLitCI] at h
      | cons y ys =>
          rw [stripLitCI] at h
          by_cases hc : jsToLower y = x
          · rw [if_pos hc] at h
            rw [List.cons_append, stripLitCI, if_pos hc]
            exact ih h z
          · rw [if_neg hc] at h
            cases h

theorem dropWhile_head_not {p : Char → Bool} : ∀ {l : List Char} {c : Char},
    (l.dropWhile p).head? = some c → p c = false := by
  intro l
  induction l with
  | nil => intro c h; simp [List.dropWhile] at h
  | cons y ys ih =>
      intro c h
      rw [List.dropWhile_cons] at h
      by_cases hy : p y
      · rw [if_pos hy] at h
        exact ih h
      · rw [if_neg hy] at h
        rw [show (y :: ys).head? = some y from rfl, Option.some.injEq] at h
        rw [← h]
        exact Bool.eq_false_iff.mpr hy

theorem dropWhile_ws_append {tw c2 : List Char} (h1 : tw.all isJsWs = true)
    (h2 : ∀ x, c2.head? = some x → isJsWs x = false) :
    (tw ++ c2).dropWhile isJsWs = c2 := by
  induction tw with
  | nil => exact dropWhile_head_false h2
  | cons y ys ih =>
      rw [List.all_cons, Bool.and_eq_true] at h1
      rw [List.cons_append, List.dropWhile_cons, if_pos h1.1]
      exact ih h1.2

theorem stripWordsCI_split {ws : List String} : ∀ {l r : List Char},
    stripWordsCI ws l = some r → ∃ c, l = c ++ r ∧ stripWordsCI ws c = some [] := by
  induction ws with
  | nil =>
      intro l r h
      rw [show stripWordsCI [] l = some l from rfl, Option.some.injEq] at h
      exact ⟨[], by rw [h]; rfl, rfl⟩
  | cons w ws ih =>
      intro l r h
      rw [stripWordsCI] at h
      cases hs : stripLitCI w.data l with
      | none => rw [hs] at h; cases h
      | some l1 =>
          rw [hs] at h
          obtain ⟨c1, hc1eq, hc1⟩ := stripLitCI_split hs
          cases ws with
          | nil =>
              rw [Option.some.injEq] at h
              refine ⟨c1, by rw [hc1eq, h], ?_⟩
              rw [stripWordsCI, hc1]
          | cons w2 ws2 =>
              obtain ⟨c2, hc2eq, hc2⟩ := ih h
              have htw : l1 = l1.takeWhile isJsWs ++ (c2 ++ r) := by
                rw [← hc2eq, List.takeWhile_append_dropWhile]
              refine ⟨c1 ++ (l1.takeWhile isJsWs ++ c2), ?_, ?_⟩
              · rw [hc1eq]
                conv_lhs => rw [htw]
                simp [List.append_assoc]
              · rw [stripWordsCI, stripLitCI_append hc1]
                show stripWordsCI (w2 :: ws2)
                    ((l1.takeWhile isJsWs ++ c2).dropWhile isJsWs) = some []
                have hdw : (l1.takeWhile isJsWs ++ c2).dropWhile isJsWs = c2 := by
                  refine dropWhile_ws_append ?_ ?_
                  · rw [List.all_eq_true]
                    intro x hx
                    exact List.mem_takeWhile_imp hx
                  · intro x hx
                    refine @dropWhile_head_not isJsWs l1 x ?_
                    rw [hc2eq]
                    cases c2 with
                    | nil => cases hx
                    | cons z zs =>
                        rw [show (z :: zs).head? = some z from rfl,
                          Option.some.injEq] at hx
                        rw [List.cons_append]
                        rw [show ((z :: (zs ++ r)).head? = some z) from rfl, hx]
                rw [hdw]
                exact hc2

theorem stripAltCI_split {alts : List (List String)} {l r : List Char}
    (h : stripAltCI alts l = some r) :
    ∃ c, l = c ++ r ∧ ∃ a ∈ alts, stripWordsCI a c = some [] := by
  induction alts with
  | nil => cases h
  | cons a rest ih =>
      rw [stripAltCI] at h
      cases hs : stripWordsCI a l with
      | none =>
          rw [hs] at h
          obtain ⟨c, h1, a2, ha2, h2⟩ := ih h
          exact ⟨c, h1, a2, List.mem_cons_of_mem a ha2, h2⟩
      | some r1 =>
          rw [hs] at h
          rw [Option.some.injEq] at h
          obtain ⟨c, h1, h2⟩ := stripWordsCI_split hs
          exact ⟨c, h ▸ h1, a, List.mem_cons_self a rest, h2⟩

theorem matchKwCode_shape {alts : List (List String)} {t cd : List Char}
    (h : matchKwCode alts t = some cd) :
    ∃ kw ws code : List Char, t = kw ++ ws ++ code ∧
      (∃ a ∈ alts, stripWordsCI a kw = some []) ∧
      ws ≠ [] ∧ ws.all isJsWs = true ∧
      code ≠ [] ∧ code.all isCodeChar = true ∧ cd = code.map jsToUpper := by
  unfold matchKwCode at h
  cases hs : stripAltCI alts t with
  | none => simp [hs] at h
  | some rest =>
      simp only [hs] at h
      by_cases hws : (rest.takeWhile isJsWs).isEmpty = true
      · rw [if_pos hws] at h
        cases h
      · rw [if_neg hws] at h
        by_cases hcode :
            (!(rest.dropWhile isJsWs).isEmpty &&
              (rest.dropWhile isJsWs).all isCodeChar) = true
        · rw [if_pos hcode] at h
          rw [Option.some.injEq] at h
          rw [Bool.and_eq_true] at hcode
          obtain ⟨kw, hkw, a, ha, hwa⟩ := stripAltCI_split hs
          refine ⟨kw, rest.takeWhile isJsWs, rest.dropWhile isJsWs, ?_, ⟨a, ha, hwa⟩,
            ?_, ?_, ?_, ?_, h.symm⟩
          · rw [hkw, List.append_assoc, List.takeWhile_append_dropWhile]
          · intro hnil
            rw [hnil] at hws
            simp at hws
          · rw [List.all_eq_true]
            intro x hx
            exact List.mem_takeWhile_imp hx
          · intro hnil
            rw [hnil] at hcode
            have := hcode.1
            simp at this
          · exact hcode.2
        · rw [if_neg hcode] at h
          cases h

theorem ruleDebt_shape {t : List Char} {i : Intent} (h : ruleDebt t = some i) :
    ∃ a d c, i = .DEBT a d c := by
  unfold ruleDebt at h
  cases hm : matchCmdAmount [["no"], ["nợ"]] t with
  | none => simp [hm] at h
  | some p =>
      obtain ⟨tok, rem⟩ := p
      simp only [hm] at h
      cases hp : parseAmount (String.mk tok) with
      | none => simp [hp] at h
      | some a =>
          simp only [hp] at h
          by_cases ha : a = 0
          · simp [ha] at h
          · rw [if_neg ha, Option.some.injEq] at h
            exact ⟨a, _, _, h.symm⟩

theorem rulePaid_shape {t : List Char} {i : Intent} (h : rulePaid t = some i) :
    ∃ a d c, i = .PAID a d c := by
  unfold rulePaid at h
  cases hm : matchCmdAmount [["tra"], ["trả"]] t with
  | none => simp [hm] at h
  | some p =>
      obtain ⟨tok, rem⟩ := p
      simp only [hm] at h
      cases hp : parseAmount (String.mk tok) with
      | none => simp [hp] at h
      | some a =>
          simp only [hp] at h
          by_cases ha : a = 0
          · simp [ha] at h
          · rw [if_neg ha, Option.some.injEq] at h
            exact ⟨a, _, _, h.symm⟩

theorem matchAlias_head_fail {c : Char} {cs : List Char}
    (h : altsRejectHead [["alias"], ["ten"], ["tên"]] c = true) :
    matchAlias (c :: cs) = none := by
  unfold matchAlias
  rw [stripAltCI_head_fail h]

theorem matchLink_head_fail {c : Char} {cs : List Char}
    (h : altsRejectHead [["link"], ["lienket"], ["liên", "kết"]] c = true) :
    matchLink (c :: cs) = none := by
  unfold matchLink
  rw [stripAltCI_head_fail h]

theorem matchKwCode_head_fail {alts : List (List String)} {c : Char} {cs : List Char}
    (h : altsRejectHead alts c = true) : matchKwCode alts (c :: cs) = none := by
  unfold matchKwCode
  rw [stripAltCI_head_fail h]

theorem stripWordsCI_single {w : String} {c rest : List Char}
    (h : stripLitCI w.data c = some []) :
    stripWordsCI [w] (c ++ rest) = some rest := by
  simp only [stripWordsCI, stripLitCI_append h rest]

/-- A successful keyword-then-whitespace-then-code match, built directly. -/
theorem matchKwCode_success {alts : List (List String)} {kw cd : List Char}
    (hstrip : stripAltCI alts (kw ++ (' ' :: cd)) = some (' ' :: cd))
    (hne : cd ≠ []) (hcc : cd.all isCodeChar = true)
    (hnws : ∀ x, cd.head? = some x → isJsWs x = false) :
    matchKwCode alts (kw ++ (' ' :: cd)) = some (cd.map jsToUpper) := by
  have hie : cd.isEmpty = false := by
    cases cd with
    | nil => exact absurd rfl hne
    | cons x xs => rfl
  simp only [matchKwCode, hstrip]
  rw [List.takeWhile_cons, if_pos (show isJsWs ' ' = true by decide),
      List.dropWhile_cons, if_pos (show isJsWs ' ' = true by decide),
      dropWhile_head_false hnws]
  simp [hie, hcc]

/-- A `REJECT_DEBT` intent can only come out of the reject pattern. -/
theorem parseCommandSync_reject_of {s : String} {r : String}
    (h : parseCommandSync s = some (.REJECT_DEBT r)) :
    ∃ cd, matchKwCode rejectAlts s.data = some cd ∧ r = String.mk cd := by
  simp only [parseCommandSync] at h
  by_cases h0 : s.data.isEmpty = true
  · rw [if_pos h0] at h
    cases h
  · rw [if_neg h0] at h
    cases h1 : matchAlias s.data with
    | some cap => simp [h1] at h
    | none =>
    simp only [h1, Option.map_none', Option.none_orElse] at h
    cases h2 : testAlts shareAlts ((jsTrim s.data).map jsToLower) with
    | true => simp [h2] at h
    | false =>
    simp only [h2, Bool.false_eq_true, if_false, Option.none_orElse] at h
    cases h3 : matchLink s.data with
    | some p => simp [h3] at h
    | none =>
    simp only [h3, Option.map_none', Option.none_orElse] at h
    cases h4 : matchKwCode confirmAlts s.data with
    | some cd => simp [h4] at h
    | none =>
    simp only [h4, Option.map_none', Option.none_orElse] at h
    cases h5 : matchKwCode rejectAlts s.data with
    | some cd =>
        simp only [h5, Option.map_some', Option.some_orElse, Option.some.injEq] at h
        exact ⟨cd, rfl, (Intent.REJECT_DEBT.inj h).symm⟩
    | none =>
    simp only [h5, Option.map_none', Option.none_orElse] at h
    exfalso
    cases h6 : testAlts pendingAlts ((jsTrim s.data).map jsToLower) with
    | true => simp [h6] at h
    | false =>
    simp only [h6, Bool.false_eq_true, if_false, Option.none_orElse] at h
    cases h7 : testAlts friendsAlts ((jsTrim s.data).map jsToLower) with
    | true => simp [h7] at h
    | false =>
    simp only [h7, Bool.false_eq_true, if_false, Option.none_orElse] at h
    cases h8 : testAlts idAlts ((jsTrim s.data).map jsToLower) with
    | true => simp [h8] at h
    | false =>
    simp only [h8, Bool.false_eq_true, if_false, Option.none_orElse] at h
    cases h9 : ruleDebt s.data with
    | some i =>
        obtain ⟨a, d, c, rfl⟩ := ruleDebt_shape h9
        simp [h9] at h
    | none =>
    simp only [h9, Option.none_orElse] at h
    cases h10 : rulePaid s.data with
    | some i =>
        obtain ⟨a, d, c, rfl⟩ := rulePaid_shape h10
        simp [h10] at h
    | none =>
    simp only [h10, Option.none_orElse] at h
    cases h11 : matchCheck ((jsTrim s.data).map jsToLower) with
    | some p => simp [h11] at h
    | none =>
    simp only [h11, Option.map_none', Option.none_orElse] at h
    cases h12 : testAlts undoAlts ((jsTrim s.data).map jsToLower) with
    | true => simp [h12] at h
    | false =>
    simp only [h12, Bool.false_eq_true, if_false, Option.none_orElse] at h
    cases h13 : matchSearch s.data with
    | some k => simp [h13] at h
    | none =>
    simp only [h13, Option.map_none', Option.none_orElse] at h
    cases h14 : testAlts statsAlts ((jsTrim s.data).map jsToLower) with
    | true => simp [h14] at h
    | false =>
    simp only [h14, Bool.false_eq_true, if_false, Option.none_orElse] at h
    cases h15 : testAlts helpAlts ((jsTrim s.data).map jsToLower) with
    | true => simp [h15] at h
    | false =>
    simp only [h15, Bool.false_eq_true, if_false] at h
    cases h

/-- Claim C9: the bare rejection keywords `huy`, `hủy`, `huỷ` parse to the
UNDO intent (which deletes the sender's most recent transaction), not to a
rejection and not to a parse failure; a `REJECT_DEBT` intent is produced
only when a reject keyword is followed by whitespace and a nonempty
alphanumeric code token reaching the end of the message, upper-cased into
the intent. -/
theorem C9_huy_undo :
    parseCommandSync "huy" = some .UNDO ∧ parseCommandSync "hủy" = some .UNDO ∧
    parseCommandSync "huỷ" = some .UNDO ∧
    ∀ (s : String) (r : String), parseCommandSync s = some (.REJECT_DEBT r) →
      ∃ kw ws code : List Char, s.data = kw ++ ws ++ code ∧
        (∃ a ∈ rejectAlts, stripWordsCI a kw = some []) ∧
        ws ≠ [] ∧ ws.all isJsWs = true ∧
        code ≠ [] ∧ code.all isCodeChar = true ∧ r = String.mk (code.map jsToUpper) := by
  refine ⟨by decide, by decide, by decide, ?_⟩
  intro s r h
  obtain ⟨cd, hcd, hr⟩ := parseCommandSync_reject_of h
  obtain ⟨kw, ws, code, h1, h2, h3, h4, h5, h6, h7⟩ := matchKwCode_shape hcd
  exact ⟨kw, ws, code, h1, h2, h3, h4, h5, h6, by rw [hr, h7]⟩

/-- Witness for C9: the shape extracted from `huy ab1`. -/
theorem C9_huy_undo_witness :
    ∃ kw ws code : List Char, ("huy ab1" : String).data = kw ++ ws ++ code ∧
      (∃ a ∈ rejectAlts, stripWordsCI a kw = some []) ∧
      ws ≠ [] ∧ ws.all isJsWs = true ∧
      code ≠ [] ∧ code.all isCodeChar = true ∧
      ("AB1" : String) = String.mk (code.map jsToUpper) :=
  C9_huy_undo.2.2.2 "huy ab1" "AB1" (by decide)

theorem all_isCodeChar_of_all_isHexUp {l : List Char} (h : l.all isHexUp = true) :
    l.all isCodeChar = true :=
  List.all_eq_true.mpr (fun c hc => isCodeChar_of_isHexUp (List.all_eq_true.mp h c hc))

theorem head_not_ws_of_all_isHexUp {l : List Char} (h : l.all isHexUp = true) :
    ∀ x, l.head? = some x → isJsWs x = false := by
  intro x hx
  cases l with
  | nil => cases hx
  | cons c cs =>
      rw [List.head?_cons, Option.some.injEq] at hx
      subst hx
      rw [List.all_cons, Bool.and_eq_true] at h
      exact isJsWs_false_of_isHexUp h.1

/-- A message `ok <code>` with a nonempty hexadecimal-uppercase code parses
to the confirm intent carrying that code verbatim. -/
theorem parse_ok_code {g : String} (hne : g.data ≠ []) (hhex : g.data.all isHexUp = true) :
    parseCommandSync ("ok " ++ g) = some (.CONFIRM_DEBT g) := by
  have hdata : ("ok " ++ g).data = 'o' :: 'k' :: ' ' :: g.data := by
    rw [String.data_append, show ("ok " : String).data = ['o', 'k', ' '] from by decide]
    rfl
  have hcc : g.data.all isCodeChar = true := all_isCodeChar_of_all_isHexUp hhex
  have hnws : ∀ x, g.data.head? = some x → isJsWs x = false :=
    head_not_ws_of_all_isHexUp hhex
  have htrim : jsTrim ('o' :: 'k' :: ' ' :: g.data) = 'o' :: 'k' :: ' ' :: g.data := by
    refine jsTrim_eq_self_of_ends ?_ ?_
    · intro c hc
      rw [List.head?_cons, Option.some.injEq] at hc
      subst hc
      decide
    · intro c hc
      rw [getLast?_cons_of_ne _ (by simp), getLast?_cons_of_ne _ (by simp),
          getLast?_cons_of_ne _ hne] at hc
      exact isJsWs_false_of_isHexUp
        (List.all_eq_true.mp hhex c (List.mem_of_mem_getLast? hc))
  have hnorm : (jsTrim ('o' :: 'k' :: ' ' :: g.data)).map jsToLower =
      'o' :: 'k' :: ' ' :: (g.data.map jsToLower) := by
    rw [htrim]
    simp only [List.map_cons, show jsToLower 'o' = 'o' from by decide,
      show jsToLower 'k' = 'k' from by decide, show jsToLower ' ' = ' ' from by decide]
  have hA : matchAlias ('o' :: 'k' :: ' ' :: g.data) = none :=
    matchAlias_head_fail (by decide)
  have hShare : testAlts shareAlts ('o' :: 'k' :: ' ' :: (g.data.map jsToLower)) = false :=
    testAlts_head_fail (by decide)
  have hLink : matchLink ('o' :: 'k' :: ' ' :: g.data) = none :=
    matchLink_head_fail (by decide)
  have hws : stripWordsCI ["ok"] (['o', 'k'] ++ (' ' :: g.data)) = some (' ' :: g.data) :=
    stripWordsCI_single (by decide)
  have hstrip : stripAltCI confirmAlts (['o', 'k'] ++ (' ' :: g.data)) =
      some (' ' :: g.data) := by
    simp only [confirmAlts, stripAltCI, hws]
  have hConfirm : matchKwCode confirmAlts ('o' :: 'k' :: ' ' :: g.data) = some g.data := by
    have h := matchKwCode_success hstrip hne hcc hnws
    rw [map_jsToUpper_hexUp hhex] at h
    exact h
  simp only [parseCommandSync, hdata, hnorm]
  rw [if_neg (by simp : ¬(('o' :: 'k' :: ' ' :: g.data).isEmpty = true))]
  simp only [hA, hShare, hLink, hConfirm, Option.map_none', Option.map_some',
    Option.none_orElse, Option.some_orElse, Bool.false_eq_true, if_false]

/-- A message `huy <code>` with a nonempty hexadecimal-uppercase code parses
to the reject intent carrying that code verbatim. -/
theorem parse_huy_code {g : String} (hne : g.data ≠ []) (hhex : g.data.all isHexUp = true) :
    parseCommandSync ("huy " ++ g) = some (.REJECT_DEBT g) := by
  have hdata : ("huy " ++ g).data = 'h' :: 'u' :: 'y' :: ' ' :: g.data := by
    rw [String.data_append,
      show ("huy " : String).data = ['h', 'u', 'y', ' '] from by decide]
    rfl
  have hcc : g.data.all isCodeChar = true := all_isCodeChar_of_all_isHexUp hhex
  have hnws : ∀ x, g.data.head? = some x → isJsWs x = false :=
    head_not_ws_of_all_isHexUp hhex
  have htrim : jsTrim ('h' :: 'u' :: 'y' :: ' ' :: g.data) =
      'h' :: 'u' :: 'y' :: ' ' :: g.data := by
    refine jsTrim_eq_self_of_ends ?_ ?_
    · intro c hc
      rw [List.head?_cons, Option.some.injEq] at hc
      subst hc
      decide
    · intro c hc
      rw [getLast?_cons_of_ne _ (by simp), getLast?_cons_of_ne _ (by simp),
          getLast?_cons_of_ne _ (by simp), getLast?_cons_of_ne _ hne] at hc
      exact isJsWs_false_of_isHexUp
        (List.all_eq_true.mp hhex c (List.mem_of_mem_getLast? hc))
  have hnorm : (jsTrim ('h' :: 'u' :: 'y' :: ' ' :: g.data)).map jsToLower =
      'h' :: 'u' :: 'y' :: ' ' :: (g.data.map jsToLower) := by
    rw [htrim]
    simp only [List.map_cons, show jsToLower 'h' = 'h' from by decide,
      show jsToLower 'u' = 'u' from by decide, show jsToLower 'y' = 'y' from by decide,
      show jsToLower ' ' = ' ' from by decide]
  have hA : matchAlias ('h' :: 'u' :: 'y' :: ' ' :: g.data) = none :=
    matchAlias_head_fail (by decide)
  have hShare : testAlts shareAlts
      ('h' :: 'u' :: 'y' :: ' ' :: (g.data.map jsToLower)) = false :=
    testAlts_head_fail (by decide)
  have hLink : matchLink ('h' :: 'u' :: 'y' :: ' ' :: g.data) = none :=
    matchLink_head_fail (by decide)
  have hConfirm : matchKwCode confirmAlts ('h' :: 'u' :: 'y' :: ' ' :: g.data) = none :=
    matchKwCode_head_fail (by decide)
  have hws : stripWordsCI ["huy"] (['h', 'u', 'y'] ++ (' ' :: g.data)) =
      some (' ' :: g.data) :=
    stripWordsCI_single (by decide)
  have hstrip : stripAltCI rejectAlts (['h', 'u', 'y'] ++ (' ' :: g.data)) =
      some (' ' :: g.data) := by
    simp only [rejectAlts, stripAltCI, hws]
  have hReject : matchKwCode rejectAlts ('h' :: 'u' :: 'y' :: ' ' :: g.data) =
      some g.data := by
    have h := matchKwCode_success hstrip hne hcc hnws
    rw [map_jsToUpper_hexUp hhex] at h
    exact h
  simp only [parseCommandSync, hdata, hnorm]
  rw [if_neg (by simp : ¬(('h' :: 'u' :: 'y' :: ' ' :: g.data).isEmpty = true))]
  simp only [hA, hShare, hLink, hConfirm, hReject, Option.map_none', Option.map_some',
    Option.none_orElse, Option.some_orElse, Bool.false_eq_true, if_false]

theorem hexDigit_hexUp (m : ℕ) : isHexUp (jsToUpper (hexDigit m)) = true := by
  by_cases hm : m < 16
  · interval_cases m <;> decide
  · have hd : hexDigit m = '0' := by
      unfold hexDigit
      exact List.getD_eq_default _ _ (by
        rw [show ("0123456789abcdef".data).length = 16 from rfl]
        omega)
    rw [hd]
    decide

theorem flatten_byteHex_length (bs : List ℕ) :
    ((bs.map byteHex).flatten).length = 2 * bs.length := by
  induction bs with
  | nil => rfl
  | cons b t ih =>
      simp only [List.map_cons, List.flatten_cons, List.length_append, ih, byteHex,
        List.length_cons, List.length_nil, List.length_cons]
      omega

theorem generateCode_length (bytes : List ℕ) {n : ℕ} (hb : bytes.length = 4)
    (h8 : n ≤ 8) : (generateCode bytes n).data.length = n := by
  unfold generateCode
  rw [List.length_take, List.length_map, flatten_byteHex_length, hb]
  omega

theorem generateCode_hexUp (bytes : List ℕ) (n : ℕ) :
    (generateCode bytes n).data.all isHexUp = true := by
  rw [List.all_eq_true]
  intro x hx
  have hx2 : x ∈ ((bytes.map byteHex).flatten).map jsToUpper :=
    List.mem_of_mem_take hx
  rw [List.mem_map] at hx2
  obtain ⟨y, hy, rfl⟩ := hx2
  rw [List.mem_flatten] at hy
  obtain ⟨s, hs, hys⟩ := hy
  rw [List.mem_map] at hs
  obtain ⟨b, _, rfl⟩ := hs
  simp only [byteHex, List.mem_cons, List.not_mem_nil, or_false] at hys
  rcases hys with rfl | rfl
  · exact hexDigit_hexUp (b / 16)
  · exact hexDigit_hexUp (b % 16)

/-- Claim C10: for any four random bytes and any requested length between 1
and 8, the generated code has exactly that many characters, all from the
uppercase hexadecimal alphabet 0-9A-F; consequently prefixing it with the
confirm keyword (`ok `) or the reject keyword (`huy `) parses back to the
confirm/reject intent carrying exactly that code, so a generated code can
always be typed back. -/
theorem C10_generateCode (bytes : List ℕ) (n : ℕ)
    (hb : bytes.length = 4) (h1 : 1 ≤ n) (h8 : n ≤ 8) :
    (generateCode bytes n).data.length = n ∧
    (generateCode bytes n).data.all isHexUp = true ∧
    parseCommandSync ("ok " ++ generateCode bytes n) =
      some (.CONFIRM_DEBT (generateCode bytes n)) ∧
    parseCommandSync ("huy " ++ generateCode bytes n) =
      some (.REJECT_DEBT (generateCode bytes n)) := by
  have hlen : (generateCode bytes n).data.length = n := generateCode_length bytes hb h8
  have hhex : (generateCode bytes n).data.all isHexUp = true := generateCode_hexUp bytes n
  have hne : (generateCode bytes n).data ≠ [] := by
    intro h
    rw [h] at hlen
    simp at hlen
    omega
  exact ⟨hlen, hhex, parse_ok_code hne hhex, parse_huy_code hne hhex⟩

/-- Witness for C10 at the bytes `AB 01 FF 2C` and the length 6 used by the
share-code and confirmation-code call sites. -/
theorem C10_generateCode_witness :
    (generateCode [171, 1, 255, 44] 6).data.length = 6 ∧
    (generateCode [171, 1, 255, 44] 6).data.all isHexUp = true ∧
    parseCommandSync ("ok " ++ generateCode [171, 1, 255, 44] 6) =
      some (.CONFIRM_DEBT (generateCode [171, 1, 255, 44] 6)) ∧
    parseCommandSync ("huy " ++ generateCode [171, 1, 255, 44] 6) =
      some (.REJECT_DEBT (generateCode [171, 1, 255, 44] 6)) :=
  C10_generateCode [171, 1, 255, 44] 6 (by decide) (by decide) (by decide)

end ChatBot
